import Mathlib

/-
Verification of the pqm (Physical Quantities and Measures) quantity-algebra
engine against its specification.

The definitions below are a shallow embedding of the current module source
(the array-capable variant of pqm.mjs, as recorded in bench/benchmark.md,
lines 52-991 of that file; the inline unit table data is taken from
src/pqm.mjs).  JS numbers are modelled as exact rationals; Math.pow is
modelled exactly on integer exponents (the only case whose value any theorem
relies on).  JS arrays of numbers are Lean lists; the scalar/array tag of a
Quantity is an explicit Bool, as in the source.  Thrown JS strings are
modelled by the error enumeration Err, one constructor per distinct throw
condition.
-/

set_option maxRecDepth 4000

-- Rational arithmetic must evaluate inside decide proofs; the library marks
-- these operations irreducible, which blocks that evaluation.
unseal Rat.add Rat.mul Rat.sub Rat.inv

namespace Pqm

/-- Strings are modelled as lists of characters, so that every parser
definition evaluates by kernel reduction. -/
abbrev Str := List Char

/-- A dimension vector: one rational exponent per base dimension, in the
source order mass, length, time, temperature, current, substance,
luminosity, information, rotation (dimensionTypes, numDimensionTypes = 9).
Exponents are rationals because Quantity.prototype.root stores
`dims[ii] / n` back into the vector. -/
abbrev Dims := Fin 9 → ℚ

/-- Build a dimension vector from a list of exponents (missing entries 0). -/
def mkDims (l : List ℚ) : Dims := fun i => l.getD i 0

/-- The all-zero dimension vector (the constructor's default). -/
def zeroDims : Dims := fun _ => 0

/-- Error conditions: one constructor per distinct `throw` site of the
source (the spec's error taxonomy names are used where it has one). -/
inductive Err where
  | incompatibleUnits        -- add/sub/compare/in: dimension mismatch
  | invalidOffsetOperation   -- add: other.offset != 0
  | offsetMultiply           -- mul: an operand has an offset
  | offsetInvert             -- inv: offset != 0
  | offsetDivide             -- div: an operand has an offset
  | fractionalPower          -- pow: n not an integer
  | offsetPower              -- pow: offset != 0 and n > 1
  | invalidRoot              -- root: n not a positive integer
  | offsetRoot               -- root: offset != 0 and n > 1
  | negativeMagnitudeRoot    -- root: magnitude < 0
  | fractionalDimension      -- root: fractional dimension check (dead code)
  | toleranceDimension       -- compare: tolerance dims incompatible
  | toleranceOffset          -- compare: tolerance quantity has offset
  | fractionalToleranceOffset -- compare: fractional tolerance on offset unit
  | arrayLengthMismatch      -- arrayOp: incompatible lengths
  | malformedUnitString      -- quantity: more than one '/'
  | unknownPrefix            -- getUnitQuantity: bad bracketed prefix
  | errorParsingUnit         -- getUnitQuantity: empty unit symbol
  | unknownUnit              -- getUnitQuantity: unresolvable symbol
  | invalidPower             -- getUnitQuantity: !parseInt(power)
  | compoundOffsetUnit       -- quantity: offset unit in a compound string
  | unitListInsufficient     -- with: greedy search stalls
  | fuelExhausted            -- model artifact: while-loop fuel ran out
deriving DecidableEq, Repr

/-- A JS value that is either a plain number or an array of numbers
(the two shapes a magnitude can take). -/
inductive JsVal (α : Type) where
  | num : α → JsVal α
  | arr : List α → JsVal α
deriving DecidableEq, Repr

/-- Physical quantity: magnitude array, scalar/array tag, dimension vector
and affine offset, exactly the fields set by the source constructor
(a scalar magnitude is stored as a one-element array with isScalar true). -/
structure Quantity where
  magnitude : List ℚ
  isScalar : Bool
  dimensions : Dims
  offset : ℚ

instance : DecidableEq Quantity := fun a b =>
  decidable_of_iff
    (a.magnitude = b.magnitude ∧ a.isScalar = b.isScalar ∧
     a.dimensions = b.dimensions ∧ a.offset = b.offset)
    (by cases a; cases b; simp)

instance {ε α : Type} [DecidableEq ε] [DecidableEq α] :
    DecidableEq (Except ε α)
  | .ok a, .ok b => decidable_of_iff (a = b) (by simp)
  | .error a, .error b => decidable_of_iff (a = b) (by simp)
  | .ok _, .error _ => isFalse (by simp)
  | .error _, .ok _ => isFalse (by simp)

/-- The source constructor applied to a plain number: one-element magnitude
array, scalar tag, default dimensions and offset. -/
def Quantity.ofNum (x : ℚ) : Quantity := ⟨[x], true, zeroDims, 0⟩

/-- Rebuild a Quantity from a magnitude value (number or array) as the source
constructor does: a number becomes a tagged scalar, an array keeps its
elements with isScalar false. -/
def Quantity.make (m : JsVal ℚ) (d : Dims) (o : ℚ) : Quantity :=
  match m with
  | .num x => ⟨[x], true, d, o⟩
  | .arr l => ⟨l, false, d, o⟩

/-- Number.isInteger on the rational model of a JS number. -/
def jsIsInteger (q : ℚ) : Bool := q.den = 1

/-- JS coercion of an array of numbers to a number ([] -> 0, a one-element
array -> its element, longer arrays -> NaN, modelled as none). -/
def jsCoerce (l : List ℚ) : Option ℚ :=
  match l with
  | [] => some 0
  | [x] => some x
  | _ => none

/-- Math.pow on the rational model: exact for integer exponents (with the
rational convention 0 ^ (negative) = 0); a non-integer exponent, which in
the source arises only for root's magnitude whose value no claim depends
on, is mapped to 0. -/
def jsPow (m e : ℚ) : ℚ := if e.den = 1 then m ^ e.num else 0

/-- arrayOp (bench/benchmark.md lines 750-776): combine two arrays
element-wise, broadcasting a length-1 operand, failing on any other length
mismatch.  The source's collapse flag is applied by collapseIf at each call
site (the source passes it into arrayOp). -/
def arrayOp [Inhabited α] [Inhabited β] (arr1 : List α) (arr2 : List β)
    (op : α → β → γ) : Except Err (List γ) :=
  if arr1.length = arr2.length then .ok (List.zipWith op arr1 arr2)
  else if arr1.length = 1 then .ok (arr2.map (op arr1.headI))
  else if arr2.length = 1 then .ok (arr1.map (fun a => op a arr2.headI))
  else .error .arrayLengthMismatch

/-- The collapse step of arrayOp: with the flag set, a one-element result is
returned as a plain number. -/
def collapseIf [Inhabited α] (c : Bool) (l : List α) : JsVal α :=
  if c = true ∧ l.length = 1 then .num l.headI else .arr l

/-- sameDimensions (lines 164-175): element-wise comparison of the two
dimension vectors over the 9 base dimensions. -/
def Quantity.sameDimensions (self other : Quantity) : Bool :=
  (List.finRange 9).all fun i => self.dimensions i == other.dimensions i

/-- add (lines 185-204). -/
def Quantity.add (self other : Quantity) : Except Err Quantity :=
  if ¬ self.sameDimensions other then .error .incompatibleUnits
  else if other.offset ≠ 0 then .error .invalidOffsetOperation
  else
    (arrayOp self.magnitude other.magnitude (· + ·)).map fun m =>
      Quantity.make (collapseIf (self.isScalar && other.isScalar) m)
        self.dimensions self.offset

/-- sub (lines 212-239).  Note that when other.offset is nonzero the result
magnitude comes from a non-collapsed arraySub, so the result is array
tagged even for scalar operands. -/
def Quantity.sub (self other : Quantity) : Except Err Quantity :=
  if ¬ self.sameDimensions other then .error .incompatibleUnits
  else
    (arrayOp self.magnitude [self.offset] (· + ·)).bind fun m1 =>
    (arrayOp other.magnitude [other.offset] (· + ·)).bind fun m2 =>
    (arrayOp m1 m2 (· - ·)).bind fun m =>
    if other.offset ≠ 0 then
      .ok (Quantity.make (.arr m) self.dimensions 0)
    else
      (arrayOp m [self.offset] (· - ·)).map fun m' =>
        Quantity.make (collapseIf (self.isScalar && other.isScalar) m')
          self.dimensions self.offset

/-- mul (lines 247-267). -/
def Quantity.mul (self other : Quantity) : Except Err Quantity :=
  if self.offset ≠ 0 ∨ other.offset ≠ 0 then .error .offsetMultiply
  else
    (arrayOp self.magnitude other.magnitude (· * ·)).map fun m =>
      Quantity.make (collapseIf (self.isScalar && other.isScalar) m)
        (fun i => self.dimensions i + other.dimensions i) 0

/-- inv (lines 276-290). -/
def Quantity.inv (self : Quantity) : Except Err Quantity :=
  if self.offset ≠ 0 then .error .offsetInvert
  else
    (arrayOp [(1 : ℚ)] self.magnitude (· / ·)).map fun m =>
      Quantity.make (collapseIf self.isScalar m)
        (fun i => - self.dimensions i) 0

/-- div (lines 299-310). -/
def Quantity.div (self other : Quantity) : Except Err Quantity :=
  if self.offset ≠ 0 ∨ other.offset ≠ 0 then .error .offsetDivide
  else other.inv.bind fun inverseValue => self.mul inverseValue

/-- pow (lines 318-337): n = 0 returns the dimensionless unit quantity;
otherwise element-wise Math.pow with dimensions scaled by n and the offset
preserved. -/
def Quantity.pow (self : Quantity) (n : ℚ) : Except Err Quantity :=
  if ¬ jsIsInteger n then .error .fractionalPower
  else if self.offset ≠ 0 ∧ n > 1 then .error .offsetPower
  else if n = 0 then .ok (Quantity.ofNum 1)
  else
    (arrayOp self.magnitude [n] jsPow).map fun m =>
      Quantity.make (collapseIf self.isScalar m)
        (fun i => self.dimensions i * n) self.offset

/-- Model of the JS comparison `this.magnitude < 0`, where magnitude is an
array: the array is coerced to a number ([] -> 0, singleton -> element,
longer -> NaN) and a NaN comparison is false. -/
def jsLtZero (l : List ℚ) : Bool :=
  match jsCoerce l with
  | some x => decide (x < 0)
  | none => false

/-- root (lines 345-373).  The source's inner loop computes
`update = dims[ii] / n` but then retests `Number.isInteger(n)` (already
known to hold) instead of update, so the fractional-dimension branch is
dead code and fractional exponents are stored. -/
def Quantity.root (self : Quantity) (n : ℚ) : Except Err Quantity :=
  if ¬ jsIsInteger n ∨ n < 1 then .error .invalidRoot
  else if self.offset ≠ 0 ∧ n > 1 then .error .offsetRoot
  else if jsLtZero self.magnitude then .error .negativeMagnitudeRoot
  else if ¬ jsIsInteger n then .error .fractionalDimension
  else
    (arrayOp self.magnitude [1 / n] jsPow).map fun m =>
      Quantity.make (collapseIf self.isScalar m)
        (fun i => self.dimensions i / n) self.offset

/-- A tolerance argument to compare: a plain number (the omitted default is
the number 0) or a quantity. -/
inductive Tol where
  | num : ℚ → Tol
  | quant : Quantity → Tol

/-- The tolerance-resolution step of compare (lines 403-425): a quantity
tolerance is dimension- and offset-checked and its magnitude taken as the
absolute tolerance; a numeric tolerance is scaled by self's magnitude.  The
absolute tolerance is an Option ℚ with none standing for NaN: in the source
it is `this.magnitude * tolerance` (array times number) or
`tolerance.magnitude` (an array), both coerced to a number by the scalar
comparisons. -/
def resolveTol (self : Quantity) (tol : Tol) : Except Err (Option ℚ) :=
  match tol with
  | .quant t =>
     if ¬ self.sameDimensions t then .error .toleranceDimension
     else if t.offset ≠ 0 then .error .toleranceOffset
     else .ok (jsCoerce t.magnitude)
  | .num x =>
     if self.offset ≠ 0 ∧ x ≠ 0 then .error .fractionalToleranceOffset
     else .ok ((jsCoerce self.magnitude).map (· * x))

/-- compare (lines 394-448): resolve the tolerance, add the offsets onto
both magnitudes and compare element-wise (a NaN tolerance makes both
comparisons false, yielding 0). -/
def Quantity.compare (self other : Quantity) (tol : Tol)
    (preventCollapse : Bool) : Except Err (JsVal ℤ) :=
  if ¬ self.sameDimensions other then .error .incompatibleUnits
  else
    (resolveTol self tol).bind fun absTol =>
    (arrayOp self.magnitude [self.offset] (· + ·)).bind fun thisMag =>
    (arrayOp other.magnitude [other.offset] (· + ·)).bind fun otherMag =>
    (arrayOp thisMag otherMag (fun a b =>
      match absTol with
      | none => (0 : ℤ)
      | some t => if b - a < -t then 1 else if b - a > t then -1 else 0)).map
      fun res =>
        collapseIf
          (if preventCollapse then false else self.isScalar && other.isScalar)
          res

/-- View a JsVal as the array the source hands to a following arrayOp (eq
and friends always call compare with preventCollapse, so the value is in
fact always an array there). -/
def JsVal.toList : JsVal α → List α
  | .num x => [x]
  | .arr l => l

/-- eq (lines 462-470): compare against [0] element-wise. -/
def Quantity.eq (self other : Quantity) (tol : Tol) :
    Except Err (JsVal Bool) :=
  (self.compare other tol true).bind fun c =>
  (arrayOp c.toList [(0 : ℤ)] (fun a _ => a == 0)).map fun res =>
    collapseIf (self.isScalar && other.isScalar) res

/-- A boolean comparison result (scalar or vector) that is true throughout. -/
def JsVal.allTrue : JsVal Bool → Prop
  | .num b => b = true
  | .arr l => ∀ b ∈ l, b = true

/-! ## Unit database

The engine imports its unit and prefix tables from the generated unitdefs
module; the data below is the restriction of that table (as recorded inline
in src/pqm.mjs) to the symbols the theorems exercise.  An entry holds the
scale s, the dimension vector d and the optional offset o, as in unitdefs. -/

/-- One unit-table entry, shaped like the unitdefs objects. -/
structure UnitDef where
  s : ℚ
  d : Dims
  o : Option ℚ

instance : Inhabited UnitDef := ⟨⟨0, zeroDims, none⟩⟩

instance : DecidableEq UnitDef := fun a b =>
  decidable_of_iff (a.s = b.s ∧ a.d = b.d ∧ a.o = b.o)
    (by cases a; cases b; simp)

/-- Turn a Lean string literal into the character-list representation. -/
def str (s : String) : Str := s.data

/-- Association-list lookup used for both tables (hasOwnProperty plus
indexing). -/
def lookupStr (table : List (Str × α)) (key : Str) : Option α :=
  List.lookup key table

/-- The units the theorems below need: the nine base units, degC, and the
derived units of the hardcoded SI list, with scale, dimension vector and
offset transcribed from the source table. -/
def unitsTable : List (Str × UnitDef) := [
  (str "g",    ⟨1/1000, mkDims [1], none⟩),
  (str "m",    ⟨1, mkDims [0, 1], none⟩),
  (str "s",    ⟨1, mkDims [0, 0, 1], none⟩),
  (str "K",    ⟨1, mkDims [0, 0, 0, 1], none⟩),
  (str "A",    ⟨1, mkDims [0, 0, 0, 0, 1], none⟩),
  (str "mol",  ⟨1, mkDims [0, 0, 0, 0, 0, 1], none⟩),
  (str "cd",   ⟨1, mkDims [0, 0, 0, 0, 0, 0, 1], none⟩),
  (str "bit",  ⟨1, mkDims [0, 0, 0, 0, 0, 0, 0, 1], none⟩),
  (str "rad",  ⟨1, mkDims [0, 0, 0, 0, 0, 0, 0, 0, 1], none⟩),
  (str "degC", ⟨1, mkDims [0, 0, 0, 1], some (5463/20)⟩),
  (str "Hz",   ⟨1, mkDims [0, 0, -1], none⟩),
  (str "N",    ⟨1, mkDims [1, 1, -2], none⟩),
  (str "Pa",   ⟨1, mkDims [1, -1, -2], none⟩),
  (str "J",    ⟨1, mkDims [1, 2, -2], none⟩),
  (str "W",    ⟨1, mkDims [1, 2, -3], none⟩),
  (str "C",    ⟨1, mkDims [0, 0, 1, 0, 1], none⟩),
  (str "V",    ⟨1, mkDims [1, 2, -3, 0, -1], none⟩),
  (str "F",    ⟨1, mkDims [-1, -2, 4, 0, 2], none⟩),
  (str "ohm",  ⟨1, mkDims [1, 2, -3, 0, -2], none⟩),
  (str "S",    ⟨1, mkDims [-1, -2, 3, 0, 2], none⟩),
  (str "Wb",   ⟨1, mkDims [1, 2, -2, 0, -1], none⟩),
  (str "T",    ⟨1, mkDims [1, 0, -2, 0, -1], none⟩),
  (str "H",    ⟨1, mkDims [1, 2, -2, 0, -2], none⟩),
  (str "lm",   ⟨1, mkDims [0, 0, 0, 0, 0, 0, 1, 0, 2], none⟩),
  (str "lx",   ⟨1, mkDims [0, -2, 0, 0, 0, 0, 1, 0, 2], none⟩),
  (str "Bq",   ⟨1, mkDims [0, 0, -1], none⟩),
  (str "Gy",   ⟨1, mkDims [0, 2, -2], none⟩)]

/-- The full prefix multiplier table of the source. -/
def prefixTable : List (Str × ℚ) := [
  (str "y", 1/10^24), (str "z", 1/10^21), (str "a", 1/10^18),
  (str "f", 1/10^15), (str "p", 1/10^12), (str "n", 1/10^9),
  (str "u", 1/10^6), (str "m", 1/1000), (str "c", 1/100), (str "d", 1/10),
  (str "da", 10), (str "h", 100), (str "k", 1000), (str "M", 10^6),
  (str "G", 10^9), (str "T", 10^12), (str "P", 10^15), (str "E", 10^18),
  (str "Z", 10^21), (str "Y", 10^24),
  (str "Ki", 2^10), (str "Mi", 2^20), (str "Gi", 2^30), (str "Ti", 2^40),
  (str "Pi", 2^50), (str "Ei", 2^60), (str "Zi", 2^70), (str "Yi", 2^80)]

/-- The keys of the prefix table. -/
def prefixKeys : List Str := prefixTable.map Prod.fst

/-! ## Unit string parser -/

/-- The character scan of getUnitQuantity (lines 818-834): split a term into
bracketed prefix, unit symbol and power text, switching the append target at
the marker characters. -/
def splitGo (idx : Nat) (p0 p1 p2 : Str) : Str → Str × Str × Str
  | [] => (p0, p1, p2)
  | c :: rest =>
    if c = '[' then splitGo 0 p0 p1 p2 rest
    else if c = ']' then splitGo 1 p0 p1 p2 rest
    else if c = '^' then splitGo 2 p0 p1 p2 rest
    else match idx with
      | 0 => splitGo 0 (p0 ++ [c]) p1 p2 rest
      | 2 => splitGo 2 p0 p1 (p2 ++ [c]) rest
      | _ => splitGo 1 p0 (p1 ++ [c]) p2 rest

/-- Split a unit term into its [prefix, unit, exponent] parts. -/
def splitUnitName (name : Str) : Str × Str × Str := splitGo 1 [] [] [] name

/-- JS whitespace (the \s class shared by parseInt's leading skip, trim and
the \s+ split): ASCII whitespace, the line terminators, and the Unicode
space separators recognized by the language. -/
def isWs (c : Char) : Bool :=
  c = ' ' ∨ c = '\t' ∨ c = '\n' ∨ c.val = 11 ∨ c.val = 12 ∨ c = '\r' ∨
  c.val = 0xa0 ∨ c.val = 0x1680 ∨ (0x2000 ≤ c.val ∧ c.val ≤ 0x200a) ∨
  c.val = 0x2028 ∨ c.val = 0x2029 ∨ c.val = 0x202f ∨ c.val = 0x205f ∨
  c.val = 0x3000 ∨ c.val = 0xfeff

/-- Value of a decimal digit string (the digits already isolated). -/
def digitsToNat (l : Str) : Nat :=
  l.foldl (fun acc c => acc * 10 + (c.toNat - '0'.toNat)) 0

/-- Hexadecimal digit, as accepted by parseInt's 0x form. -/
def isHexDigit (c : Char) : Bool :=
  c.isDigit ∨ ('a' ≤ c ∧ c ≤ 'f') ∨ ('A' ≤ c ∧ c ≤ 'F')

/-- Value of one hexadecimal digit. -/
def hexVal (c : Char) : Nat :=
  if c.isDigit then c.toNat - '0'.toNat
  else if 'a' ≤ c ∧ c ≤ 'f' then c.toNat - 'a'.toNat + 10
  else c.toNat - 'A'.toNat + 10

/-- Value of a hexadecimal digit string (the digits already isolated). -/
def hexToNat (l : Str) : Nat :=
  l.foldl (fun acc c => acc * 16 + hexVal c) 0

/-- JS parseInt with no radix argument: skip leading whitespace, take an
optional sign, then either a 0x/0X hexadecimal literal (longest run of hex
digits) or the longest leading run of decimal digits; none models NaN (no
digits found). -/
def jsParseInt (sIn : Str) : Option ℤ :=
  let s := sIn.dropWhile isWs
  let signRest : ℤ × Str :=
    match s with
    | '-' :: r => (-1, r)
    | '+' :: r => (1, r)
    | r => (1, r)
  let sign := signRest.1
  let rest := signRest.2
  let isHex : Bool :=
    match rest with
    | '0' :: x :: _ => x = 'x' ∨ x = 'X'
    | _ => false
  if isHex then
    let digits := (rest.drop 2).takeWhile isHexDigit
    if digits.isEmpty then none
    else some (sign * (hexToNat digits : ℤ))
  else
    let digits := rest.takeWhile Char.isDigit
    if digits.isEmpty then none
    else some (sign * (digitsToNat digits : ℤ))

/-- getUnitQuantity (lines 818-903): resolve one term of a unit string.
A bracketed prefix on an offset unit is applied to the magnitude directly,
bypassing mul's offset check, exactly as the source does. -/
def getUnitQuantity (units : List (Str × UnitDef))
    (prefixes : List (Str × ℚ)) (unitName : Str) : Except Err Quantity :=
  let ps := splitUnitName unitName
  let p0 := ps.1
  let p1 := ps.2.1
  let p2 := ps.2.2
  (if p0 ≠ [] then
     match lookupStr prefixes p0 with
     | some v => .ok v
     | none => .error .unknownPrefix
   else .ok 1 : Except Err ℚ).bind fun prefixValue0 =>
  if p1 = [] then .error .errorParsingUnit
  else
    -- exact symbol match first, then the 1-character and 2-character
    -- prefix-splitting fallbacks (only without an explicit bracketed prefix)
    (if (lookupStr units p1).isSome then .ok (prefixValue0, p1)
     else if prefixValue0 = 1 ∧ (lookupStr units (p1.drop 1)).isSome ∧
         (lookupStr prefixes (p1.take 1)).isSome then
       .ok ((lookupStr prefixes (p1.take 1)).getD 0, p1.drop 1)
     else if prefixValue0 = 1 ∧ (lookupStr units (p1.drop 2)).isSome ∧
         (lookupStr prefixes (p1.take 2)).isSome then
       .ok ((lookupStr prefixes (p1.take 2)).getD 0, p1.drop 2)
     else .error .unknownUnit : Except Err (ℚ × Str)).bind fun pu =>
    let ustruct := (lookupStr units pu.2).getD default
    let uq : Quantity := ⟨[ustruct.s], true, ustruct.d, ustruct.o.getD 0⟩
    (if p2 ≠ [] then
       match jsParseInt p2 with
       | none => .error .invalidPower   -- parseInt gave NaN, !NaN is true
       | some k =>
         if k = 0 then .error .invalidPower -- !powerValue also catches 0
         else .ok (k : ℚ)
     else .ok 1 : Except Err ℚ).bind fun powerValue =>
    (if pu.1 ≠ 1 then
       -- source: unitQuantity.magnitude = arrayMul(unitQuantity.magnitude,
       -- [prefixValue]) -- deliberately not .mul, to permit offset units
       (arrayOp uq.magnitude [pu.1] (· * ·)).map fun m =>
         { uq with magnitude := m }
     else .ok uq : Except Err Quantity).bind fun uq1 =>
    if powerValue ≠ 1 then uq1.pow powerValue else .ok uq1

-- (isWs is defined above, before jsParseInt, which shares it.)

/-- String.prototype.trim. -/
def jsTrim (s : Str) : Str :=
  ((s.dropWhile isWs).reverse.dropWhile isWs).reverse

/-- String.prototype.split on a single separator character. -/
def splitOnChar (c : Char) : Str → List Str
  | [] => [[]]
  | x :: rest =>
    if x = c then [] :: splitOnChar c rest
    else match splitOnChar c rest with
      | [] => [[x]]
      | h :: t => (x :: h) :: t

/-- One character of the \s+ split pass: state is (completed tokens,
current token, inside-whitespace-run flag). -/
def wsStep (st : List Str × Str × Bool) (c : Char) : List Str × Str × Bool :=
  if isWs c then
    if st.2.2 then st
    else (st.1 ++ [st.2.1], [], true)
  else (st.1, st.2.1 ++ [c], false)

/-- String.prototype.split on the regex \s+: tokens separated by maximal
whitespace runs, with empty tokens at a leading or trailing run.  Written as
a single left-to-right pass. -/
def wsSplit (s : Str) : List Str :=
  let fin := s.foldl wsStep ([], [], false)
  fin.1 ++ [fin.2.1]

/-- The per-term body of quantity's loop (lines 926-943): resolve the term,
invert it in the second section, and fold it into the running product -- an
offset unit is only allowed as the sole term of a single-section string. -/
def quantityTerm (units : List (Str × UnitDef)) (prefixes : List (Str × ℚ))
    (nSections nTerms si : Nat) (acc : Quantity) (sym : Str) :
    Except Err Quantity :=
  (getUnitQuantity units prefixes sym).bind fun u0 =>
  (if si > 0 then u0.inv else .ok u0).bind fun u =>
  if u.offset = 0 then acc.mul u
  else if nSections = 1 ∧ nTerms = 1 then .ok u
  else .error .compoundOffsetUnit

/-- quantity (lines 919-949): parse a compound unit string and scale by the
magnitude (the final scaling writes the magnitude field directly, bypassing
mul). -/
def quantityParse (units : List (Str × UnitDef)) (prefixes : List (Str × ℚ))
    (magnitude : ℚ) (unitString : Str) : Except Err Quantity :=
  (if unitString ≠ [] then
     let sections := splitOnChar '/' unitString
     if sections.length > 2 then .error .malformedUnitString
     else
       sections.enum.foldlM (fun acc sisec =>
         let unitSyms := wsSplit (jsTrim sisec.2)
         unitSyms.foldlM
           (fun acc sym =>
             quantityTerm units prefixes sections.length unitSyms.length
               sisec.1 acc sym) acc) (Quantity.ofNum 1)
   else .ok (Quantity.ofNum 1) : Except Err Quantity).bind fun q =>
  (arrayOp q.magnitude [magnitude] (· * ·)).map fun m =>
    { q with magnitude := m }

/-! ## Compact representation (best-fit decomposition) -/

/-- dimensionality (lines 112-120): total of the absolute dimension
exponents (each added only when nonzero, as in the source loop). -/
def Quantity.dimensionality (self : Quantity) : ℚ :=
  (List.finRange 9).foldl
    (fun total i =>
      if self.dimensions i ≠ 0 then total + |self.dimensions i| else total) 0

/-- One scan of the candidate (unit, sign) pairs in source order (unit index
outer, sign -1 then +1 inner), keeping the first strict improvement of the
remainder (lines 611-632).  Returns (bestIdx, bestInv, bestRemainder,
bestRemainderArray); bestIdx stays -1 when nothing improves. -/
def scanBest (unitArray : List Dims) (remainder : ℚ) (remainderArray : Dims) :
    ℤ × ℤ × ℚ × Dims :=
  (((List.range unitArray.length).map
      (fun u => [(u, (-1 : ℤ)), (u, 1)])).flatten).foldl
    (fun best cand =>
      let uDims := unitArray.getD cand.1 zeroDims
      let newArr : Dims := fun d => remainderArray d - cand.2 * uDims d
      let newRem : ℚ := (List.finRange 9).foldl (fun acc d => acc + |newArr d|) 0
      if newRem < best.2.2.1 then ((cand.1 : ℤ), cand.2, newRem, newArr)
      else best)
    (-1, 0, remainder, zeroDims)

/-- The while-loop of with (lines 610-651), written with explicit fuel (an
upper bound on the iteration count; each iteration either throws or strictly
decreases the remainder).  fuelExhausted is a model artifact that no
terminating execution of the source loop reaches. -/
def withGo (unitArray : List Dims) (useUnits : List ℕ) (usePowers : List ℤ)
    (remainder : ℚ) (remainderArray : Dims) :
    ℕ → Except Err (List ℕ × List ℤ)
  | 0 => throw .fuelExhausted
  | fuel + 1 =>
    if remainder > 0 then
      let s := scanBest unitArray remainder remainderArray
      if s.2.2.1 ≥ remainder then throw .unitListInsufficient
      else
        let bIdx := s.1.toNat
        let bInv := s.2.1
        let existingIdx := useUnits.indexOf bIdx
        if existingIdx < useUnits.length then
          withGo unitArray useUnits
            (usePowers.set existingIdx (usePowers.getD existingIdx 0 + bInv))
            s.2.2.1 s.2.2.2 fuel
        else
          withGo unitArray (useUnits ++ [bIdx]) (usePowers ++ [bInv])
            s.2.2.1 s.2.2.2 fuel
    else pure (useUnits, usePowers)

/-- Decimal digits of a natural number (rendering helper for powers). -/
def natDigits (n : ℕ) : Str := (toString n).data

/-- The numerator/denominator assembly of with (lines 655-685). -/
def assembleUnits (unitList : List Str) (useUnits : List ℕ)
    (usePowers : List ℤ) : Str :=
  let pieces := (useUnits.zip usePowers).foldl
    (fun (nd : Str × Str) up =>
      let uname := unitList.getD up.1 []
      if up.2 > 0 then
        (nd.1 ++ uname ++
          (if up.2 > 1 then '^' :: natDigits up.2.toNat ++ [' '] else [' ']),
         nd.2)
      else
        (nd.1,
         nd.2 ++ uname ++
          (if up.2 < -1 then '^' :: natDigits (-up.2).toNat ++ [' ']
           else [' '])))
    ([], [])
  let numerator := pieces.1
  let denominator := pieces.2
  if numerator.length = 0 ∧ denominator.length = 0 then str "1"
  else if denominator.length = 0 then jsTrim numerator
  else
    let numerator := if numerator.length = 0 then str "1 " else numerator
    jsTrim (numerator ++ str "/ " ++ denominator)

/-- in (lines 571-585): magnitude of the quantity expressed in the unit
denoted by the given string. -/
def Quantity.inUnits (units : List (Str × UnitDef))
    (prefixes : List (Str × ℚ)) (self : Quantity) (unitString : Str) :
    Except Err (JsVal ℚ) := do
  let convertQuantity ← quantityParse units prefixes 1 unitString
  if ¬ self.sameDimensions convertQuantity then throw .incompatibleUnits
  let currentMagnitude ← arrayOp self.magnitude [self.offset] (· + ·)
  let newMagnitude ← arrayOp currentMagnitude [convertQuantity.offset] (· - ·)
  let res ← arrayOp newMagnitude convertQuantity.magnitude (· / ·)
  pure (collapseIf self.isScalar res)

/-- with (lines 596-686): greedy best-fit decomposition of the dimension
vector over a candidate unit list, then conversion into the assembled
string. -/
def Quantity.withList (units : List (Str × UnitDef))
    (prefixes : List (Str × ℚ)) (self : Quantity) (unitList : List Str) :
    Except Err (JsVal ℚ × Str) := do
  let unitArray ← unitList.mapM
    (fun u => (getUnitQuantity units prefixes u).map Quantity.dimensions)
  let remainder := self.dimensionality
  -- fuel: the remainder decreases by at least 1/D per iteration, where D is
  -- the common denominator of the dimension exponents
  let dlcm := (List.finRange 9).foldl
    (fun a i => Nat.lcm a (self.dimensions i).den) 1
  let fuel := (remainder.num.toNat + 1) * dlcm + 1
  let up ← withGo unitArray [] [] remainder self.dimensions fuel
  let fullUnits := assembleUnits unitList up.1 up.2
  let res ← self.inUnits units prefixes fullUnits
  pure (res, fullUnits)

/-- inSI (lines 695-701): with over the hardcoded SI candidate list of the
source (note: it contains no rotation unit). -/
def Quantity.inSI (units : List (Str × UnitDef)) (prefixes : List (Str × ℚ))
    (self : Quantity) : Except Err (JsVal ℚ × Str) :=
  self.withList units prefixes
    [str "[k]g", str "m", str "s", str "K", str "A", str "mol", str "cd",
     str "bit",
     str "Hz", str "N", str "Pa", str "J", str "W", str "C", str "V",
     str "F", str "ohm", str "S", str "Wb", str "T", str "H",
     str "lm", str "lx", str "Bq", str "Gy"]

/-! ## Concrete inputs used by the theorems -/

/-- Temperature dimension vector. -/
def tempDims : Dims := mkDims [0, 0, 0, 1]

/-- Length dimension vector. -/
def lenDims : Dims := mkDims [0, 1]

/-- Rotation dimension vector. -/
def rotDims : Dims := mkDims [0, 0, 0, 0, 0, 0, 0, 0, 1]

/-- The quantity 1 m. -/
def oneMeter : Quantity := ⟨[1], true, lenDims, 0⟩

/-- The quantity 1 rad. -/
def oneRadian : Quantity := ⟨[1], true, rotDims, 0⟩

/-- A character that carries no syntactic meaning for the unit-string
grammar: not a bracket, caret, section separator or whitespace. -/
abbrev plainChar (c : Char) : Prop :=
  c ≠ '[' ∧ c ≠ ']' ∧ c ≠ '^' ∧ c ≠ '/' ∧ ¬ isWs c = true

/-! ## Supporting lemmas -/

/-- sameDimensions is exactly equality of the dimension vectors. -/
theorem sameDimensions_iff (a b : Quantity) :
    a.sameDimensions b = true ↔ a.dimensions = b.dimensions := by
  unfold Quantity.sameDimensions
  rw [List.all_eq_true]
  constructor
  · intro h
    funext i
    have := h i (List.mem_finRange i)
    exact eq_of_beq this
  · intro h i _
    rw [h]
    exact beq_self_eq_true _

/-- arrayOp against a one-element second operand is a map (covering both the
equal-length and the broadcast branch). -/
theorem arrayOp_singletonR [Inhabited α] [Inhabited β] (l : List α) (c : β)
    (op : α → β → γ) : arrayOp l [c] op = .ok (l.map (fun a => op a c)) := by
  match l with
  | [] => simp [arrayOp]
  | [x] => simp [arrayOp, List.zipWith]
  | x :: y :: t => simp [arrayOp]

/-- arrayOp with a one-element first operand is a map over the second. -/
theorem arrayOp_singletonL [Inhabited α] [Inhabited β] (c : α) (l : List β)
    (op : α → β → γ) : arrayOp [c] l op = .ok (l.map (op c)) := by
  match l with
  | [] => simp [arrayOp]
  | [x] => simp [arrayOp, List.zipWith]
  | x :: y :: t => simp [arrayOp]

/-- arrayOp on equal-length operands zips them. -/
theorem arrayOp_eqLength [Inhabited α] [Inhabited β] (l1 : List α)
    (l2 : List β) (op : α → β → γ) (h : l1.length = l2.length) :
    arrayOp l1 l2 op = .ok (List.zipWith op l1 l2) := by
  simp [arrayOp, h]

/-- In state 2 the splitter appends every marker-free character to the
power accumulator. -/
theorem splitGo_two (rest : Str)
    (hm : ∀ c ∈ rest, c ≠ '[' ∧ c ≠ ']' ∧ c ≠ '^') :
    ∀ p0 p1 p2, splitGo 2 p0 p1 p2 rest = (p0, p1, p2 ++ rest) := by
  induction rest with
  | nil => intro p0 p1 p2; simp [splitGo]
  | cons c r ih =>
    intro p0 p1 p2
    obtain ⟨h1, h2, h3⟩ := hm c (List.mem_cons_self c r)
    rw [splitGo, if_neg h1, if_neg h2, if_neg h3]
    show splitGo 2 p0 p1 (p2 ++ [c]) r = (p0, p1, p2 ++ c :: r)
    rw [ih (fun d hd => hm d (List.mem_cons_of_mem c hd))]
    simp

/-- In state 1, a marker-free base followed by a caret and a marker-free
tail splits into (prefix so far, base appended, tail appended). -/
theorem splitGo_one (base : Str)
    (hbm : ∀ c ∈ base, c ≠ '[' ∧ c ≠ ']' ∧ c ≠ '^') (t : Str)
    (htm : ∀ c ∈ t, c ≠ '[' ∧ c ≠ ']' ∧ c ≠ '^') :
    ∀ p0 p1 p2, splitGo 1 p0 p1 p2 (base ++ '^' :: t) =
      (p0, p1 ++ base, p2 ++ t) := by
  induction base with
  | nil =>
    intro p0 p1 p2
    rw [List.nil_append, splitGo, if_neg (by decide), if_neg (by decide),
      if_pos rfl, splitGo_two t htm]
    · simp
    all_goals decide
  | cons c r ih =>
    intro p0 p1 p2
    obtain ⟨h1, h2, h3⟩ := hbm c (List.mem_cons_self c r)
    rw [List.cons_append, splitGo, if_neg h1, if_neg h2, if_neg h3]
    show splitGo 1 p0 (p1 ++ [c]) p2 (r ++ '^' :: t) = (p0, p1 ++ c :: r, p2 ++ t)
    rw [ih (fun d hd => hbm d (List.mem_cons_of_mem c hd))]
    · simp
    all_goals decide

/-- Splitting a marker-free base with an explicit power marker. -/
theorem splitUnitName_power (base t : Str)
    (hbm : ∀ c ∈ base, c ≠ '[' ∧ c ≠ ']' ∧ c ≠ '^')
    (htm : ∀ c ∈ t, c ≠ '[' ∧ c ≠ ']' ∧ c ≠ '^') :
    splitUnitName (base ++ '^' :: t) = ([], base, t) := by
  unfold splitUnitName
  rw [splitGo_one base hbm t htm]
  simp

/-- Ok-bind reduction for Except. -/
theorem exceptBindOk (a : α) (f : α → Except Err β) :
    (Except.ok a : Except Err α).bind f = f a := rfl

/-- Ok-map reduction for Except. -/
theorem exceptMapOk (a : α) (f : α → β) :
    (Except.ok a : Except Err α).map f = .ok (f a) := rfl

/-- A map by a pointwise-identity function is the identity. -/
theorem mapIdOfEq (l : List ℚ) (f : ℚ → ℚ) (h : ∀ x, f x = x) :
    l.map f = l := by
  induction l with
  | nil => rfl
  | cons x r ih => simp [h, ih]

/-- In state 1 a marker-free string is appended wholesale to the unit-name
accumulator. -/
theorem splitGo_plain (s : Str)
    (hm : ∀ c ∈ s, c ≠ '[' ∧ c ≠ ']' ∧ c ≠ '^') :
    ∀ p0 p1 p2, splitGo 1 p0 p1 p2 s = (p0, p1 ++ s, p2) := by
  induction s with
  | nil => intro p0 p1 p2; simp [splitGo]
  | cons c r ih =>
    intro p0 p1 p2
    obtain ⟨h1, h2, h3⟩ := hm c (List.mem_cons_self c r)
    rw [splitGo, if_neg h1, if_neg h2, if_neg h3]
    show splitGo 1 p0 (p1 ++ [c]) p2 r = (p0, p1 ++ c :: r, p2)
    rw [ih (fun d hd => hm d (List.mem_cons_of_mem c hd))]
    · simp
    all_goals decide

/-- Splitting a marker-free term: no prefix, no power. -/
theorem splitUnitName_plain (s : Str)
    (hm : ∀ c ∈ s, c ≠ '[' ∧ c ≠ ']' ∧ c ≠ '^') :
    splitUnitName s = ([], s, []) := by
  unfold splitUnitName
  rw [splitGo_plain s hm]
  simp

/-- In state 0, marker-free characters accumulate into the prefix until the
closing bracket returns to state 1. -/
theorem splitGo_zero (p : Str)
    (hpm : ∀ c ∈ p, c ≠ '[' ∧ c ≠ ']' ∧ c ≠ '^') (rest : Str) :
    ∀ p0 p1 p2, splitGo 0 p0 p1 p2 (p ++ ']' :: rest) =
      splitGo 1 (p0 ++ p) p1 p2 rest := by
  induction p with
  | nil =>
    intro p0 p1 p2
    rw [List.nil_append, splitGo, if_neg (by decide), if_pos rfl]
    simp
  | cons c r ih =>
    intro p0 p1 p2
    obtain ⟨h1, h2, h3⟩ := hpm c (List.mem_cons_self c r)
    rw [List.cons_append, splitGo, if_neg h1, if_neg h2, if_neg h3]
    show splitGo 0 (p0 ++ [c]) p1 p2 (r ++ ']' :: rest) = _
    rw [ih (fun d hd => hpm d (List.mem_cons_of_mem c hd))]
    simp

/-- Splitting a bracketed prefix followed by a marker-free base. -/
theorem splitUnitName_bracket (p base : Str)
    (hpm : ∀ c ∈ p, c ≠ '[' ∧ c ≠ ']' ∧ c ≠ '^')
    (hbm : ∀ c ∈ base, c ≠ '[' ∧ c ≠ ']' ∧ c ≠ '^') :
    splitUnitName ('[' :: p ++ (']' :: base)) = (p, base, []) := by
  unfold splitUnitName
  rw [List.cons_append, splitGo, if_pos rfl, splitGo_zero p hpm base,
    splitGo_plain base hbm]
  · simp
  all_goals decide

/-- Splitting on a character that does not occur is the identity. -/
theorem splitSlash_none (s : Str) (hs : ∀ c ∈ s, c ≠ '/') :
    splitOnChar '/' s = [s] := by
  induction s with
  | nil => rfl
  | cons x r ih =>
    rw [splitOnChar, if_neg (hs x (List.mem_cons_self x r)),
      ih (fun d hd => hs d (List.mem_cons_of_mem x hd))]

/-- Splitting at the first separator when the head part is separator-free. -/
theorem splitSlash_app (A B : Str) (hA : ∀ c ∈ A, c ≠ '/') :
    splitOnChar '/' (A ++ '/' :: B) = A :: splitOnChar '/' B := by
  induction A with
  | nil =>
    rw [List.nil_append, splitOnChar, if_pos rfl]
  | cons a A' ih =>
    rw [List.cons_append, splitOnChar,
      if_neg (hA a (List.mem_cons_self a A')),
      ih (fun d hd => hA d (List.mem_cons_of_mem a hd))]

/-- dropWhile does not touch a list starting with a non-whitespace
character. -/
theorem dropWhile_cons_noWs (c : Char) (s : Str) (h : ¬ isWs c = true) :
    (c :: s).dropWhile isWs = c :: s := by
  rw [List.dropWhile_cons, if_neg h]

/-- dropWhile is the identity on a whitespace-free list. -/
theorem dropWhile_noWs (s : Str) (h : ∀ c ∈ s, ¬ isWs c = true) :
    s.dropWhile isWs = s := by
  cases s with
  | nil => rfl
  | cons c r => exact dropWhile_cons_noWs c r (h c (List.mem_cons_self c r))

/-- trim is the identity on a whitespace-free string. -/
theorem jsTrim_noWs (s : Str) (h : ∀ c ∈ s, ¬ isWs c = true) :
    jsTrim s = s := by
  unfold jsTrim
  rw [dropWhile_noWs s h,
    dropWhile_noWs s.reverse (fun c hc => h c (List.mem_reverse.mp hc)),
    List.reverse_reverse]

/-- trim is the identity on a string whose two ends are whitespace-free
nonempty runs, whatever the separator between them. -/
theorem jsTrim_pair (A B : Str) (m : Char) (hA : A ≠ []) (hB : B ≠ [])
    (hwA : ∀ c ∈ A, ¬ isWs c = true) (hwB : ∀ c ∈ B, ¬ isWs c = true) :
    jsTrim (A ++ m :: B) = A ++ m :: B := by
  have h1 : (A ++ m :: B).dropWhile isWs = A ++ m :: B := by
    cases A with
    | nil => exact absurd rfl hA
    | cons a A' =>
      rw [List.cons_append]
      exact dropWhile_cons_noWs a _ (hwA a (List.mem_cons_self a A'))
  have h2 : (A ++ m :: B).reverse.dropWhile isWs = (A ++ m :: B).reverse := by
    cases hB' : B.reverse with
    | nil => exact absurd (by simpa using congrArg List.reverse hB') hB
    | cons b B'' =>
      have hbB : b ∈ B := by
        rw [← List.mem_reverse, hB']
        exact List.mem_cons_self b B''
      have hsh : (A ++ m :: B).reverse = b :: (B'' ++ m :: A.reverse) := by
        rw [List.reverse_append, List.reverse_cons, hB']
        simp
      rw [hsh]
      exact dropWhile_cons_noWs b _ (hwB b hbB)
  unfold jsTrim
  rw [h1, h2, List.reverse_reverse]

/-- Folding the whitespace splitter over a whitespace-free suffix from an
outside-a-run state appends the suffix to the current token. -/
theorem wsFold_noWs0 (s : Str) (h : ∀ c ∈ s, ¬ isWs c = true) :
    ∀ acc cur, s.foldl wsStep (acc, cur, false) = (acc, cur ++ s, false) := by
  induction s with
  | nil => intro acc cur; simp
  | cons c r ih =>
    intro acc cur
    have hstep : wsStep (acc, cur, false) c = (acc, cur ++ [c], false) := by
      unfold wsStep
      rw [if_neg (h c (List.mem_cons_self c r))]
    rw [List.foldl_cons, hstep,
      ih (fun e he => h e (List.mem_cons_of_mem c he)) acc (cur ++ [c])]
    simp

/-- The same from any state, for a nonempty whitespace-free suffix. -/
theorem wsFold_noWs (c : Char) (r : Str) (hc : ¬ isWs c = true)
    (h : ∀ e ∈ r, ¬ isWs e = true) (acc : List Str) (cur : Str)
    (flag : Bool) :
    (c :: r).foldl wsStep (acc, cur, flag) = (acc, cur ++ c :: r, false) := by
  have hstep : wsStep (acc, cur, flag) c = (acc, cur ++ [c], false) := by
    unfold wsStep
    rw [if_neg hc]
  rw [List.foldl_cons, hstep, wsFold_noWs0 r h acc (cur ++ [c])]
  simp

/-- Splitting a whitespace-free string on whitespace runs keeps it whole. -/
theorem wsSplit_noWs (s : Str) (h : ∀ c ∈ s, ¬ isWs c = true) :
    wsSplit s = [s] := by
  unfold wsSplit
  rw [wsFold_noWs0 s h [] []]
  simp

/-- Splitting two nonempty whitespace-free tokens around a single space. -/
theorem wsSplit_pair (A B : Str) (hB : B ≠ [])
    (hwA : ∀ c ∈ A, ¬ isWs c = true) (hwB : ∀ c ∈ B, ¬ isWs c = true) :
    wsSplit (A ++ ' ' :: B) = [A, B] := by
  obtain ⟨b, B', rfl⟩ : ∃ b B', B = b :: B' := by
    cases B with
    | nil => exact absurd rfl hB
    | cons b B' => exact ⟨b, B', rfl⟩
  unfold wsSplit
  rw [List.foldl_append, wsFold_noWs0 A hwA [] [], List.foldl_cons]
  have hstep : wsStep (([] : List Str), ([] : Str) ++ A, false) ' ' =
      ([([] : Str) ++ A], [], true) := by
    unfold wsStep
    rw [if_pos (show isWs ' ' = true from by decide)]
    simp
  rw [hstep,
    wsFold_noWs b B' (hwB b (List.mem_cons_self b B'))
      (fun e he => hwB e (List.mem_cons_of_mem b he)) [([] : Str) ++ A] []
      true]
  simp

/-- Ok-bind reduction for the monadic bind on Except. -/
theorem exceptSeqBindOk (a : α) (f : α → Except Err β) :
    ((Except.ok a : Except Err α) >>= f) = f a := rfl

/-- Error-bind reduction for the monadic bind on Except. -/
theorem exceptSeqBindErr (e : Err) (f : α → Except Err β) :
    ((Except.error e : Except Err α) >>= f) = .error e := rfl

/-- Error-bind reduction for Except.bind. -/
theorem exceptBindErr (e : Err) (f : α → Except Err β) :
    (Except.error e : Except Err α).bind f = .error e := rfl

/-- pure on Except is ok. -/
theorem exceptPure (a : α) : (pure a : Except Err α) = .ok a := rfl

/-- Resolving a marker-free term that is an exact symbol of the registry. -/
theorem getUnit_plain (units : List (Str × UnitDef))
    (prefixes : List (Str × ℚ)) (w : Str) (wd : UnitDef)
    (hw : w ≠ []) (hwm : ∀ c ∈ w, c ≠ '[' ∧ c ≠ ']' ∧ c ≠ '^')
    (hu : lookupStr units w = some wd) :
    getUnitQuantity units prefixes w =
      .ok ⟨[wd.s], true, wd.d, wd.o.getD 0⟩ := by
  unfold getUnitQuantity
  rw [splitUnitName_plain w hwm]
  simp only [ne_eq, not_true_eq_false, if_false, ite_false, ite_true,
    exceptBindOk, hu, Option.isSome_some, if_true, Option.getD_some,
    hw, not_false_eq_true]

/-- Resolving a bracket-prefixed registry symbol: the prefix value scales
the magnitude directly (bypassing mul), so the offset survives. -/
theorem getUnit_bracket (units : List (Str × UnitDef))
    (prefixes : List (Str × ℚ)) (p base : Str) (ud : UnitDef) (v : ℚ)
    (hp : p ≠ []) (hpm : ∀ c ∈ p, c ≠ '[' ∧ c ≠ ']' ∧ c ≠ '^')
    (hb : base ≠ []) (hbm : ∀ c ∈ base, c ≠ '[' ∧ c ≠ ']' ∧ c ≠ '^')
    (hu : lookupStr units base = some ud)
    (hv : lookupStr prefixes p = some v) :
    getUnitQuantity units prefixes ('[' :: p ++ (']' :: base)) =
      .ok ⟨[ud.s * v], true, ud.d, ud.o.getD 0⟩ := by
  unfold getUnitQuantity
  rw [splitUnitName_bracket p base hpm hbm]
  simp only [ne_eq, hp, not_false_eq_true, if_true, ite_true, hv,
    exceptBindOk, hb, not_true_eq_false, if_false, ite_false, hu,
    Option.isSome_some, Option.getD_some]
  by_cases h1 : v = 1
  · subst h1
    simp [exceptBindOk]
  · rw [if_pos h1, arrayOp_singletonR, exceptMapOk, exceptBindOk]
    simp

/-- Resolving a marker-free registry symbol with an explicit power text:
the remaining computation is parseInt on the text followed by pow. -/
theorem getUnit_power_body (units : List (Str × UnitDef))
    (prefixes : List (Str × ℚ)) (base t : Str) (ud : UnitDef)
    (hb : base ≠ [])
    (hbm : ∀ c ∈ base, c ≠ '[' ∧ c ≠ ']' ∧ c ≠ '^')
    (htm : ∀ c ∈ t, c ≠ '[' ∧ c ≠ ']' ∧ c ≠ '^')
    (ht : t ≠ [])
    (hu : lookupStr units base = some ud) :
    getUnitQuantity units prefixes (base ++ '^' :: t) =
      (match jsParseInt t with
        | none => (.error .invalidPower : Except Err ℚ)
        | some k => if k = 0 then .error .invalidPower else .ok (k : ℚ)).bind
        fun powerValue =>
        if powerValue ≠ 1 then
          Quantity.pow ⟨[ud.s], true, ud.d, ud.o.getD 0⟩ powerValue
        else .ok ⟨[ud.s], true, ud.d, ud.o.getD 0⟩ := by
  have hsplit := splitUnitName_power base t hbm htm
  unfold getUnitQuantity
  rw [hsplit]
  simp only [ne_eq, not_true_eq_false, if_false, ite_false, ite_true,
    exceptBindOk, hu, Option.isSome_some, if_true, Option.getD_some,
    hb, ht, not_false_eq_true]

/-- Building a quantity from a possibly-collapsed one-element magnitude
yields the element as magnitude and the collapse flag as the scalar tag. -/
theorem make_collapseIf_singleton (c : Bool) (v : ℚ) (d : Dims) (o : ℚ) :
    Quantity.make (collapseIf c [v]) d o = ⟨[v], c, d, o⟩ := by
  cases c <;> simp [collapseIf, Quantity.make]

/-- Collapsing is the identity on the stored magnitude list whenever the
scalar tag implies a one-element list. -/
theorem make_collapseIf_id (c : Bool) (l : List ℚ) (d : Dims) (o : ℚ)
    (h : c = true → l.length = 1) :
    Quantity.make (collapseIf c l) d o = ⟨l, c, d, o⟩ := by
  cases c with
  | false => simp [collapseIf, Quantity.make]
  | true =>
    match l, h rfl with
    | [v], _ => simp [collapseIf, Quantity.make]

/-- The magnitude stored by a possibly-collapsed construction is the list
itself (collapsing only changes the scalar tag). -/
theorem make_collapse_mag (c : Bool) (l : List ℚ) (d : Dims) (o : ℚ) :
    (Quantity.make (collapseIf c l) d o).magnitude = l := by
  unfold collapseIf
  by_cases h : c = true ∧ l.length = 1
  · rw [if_pos h]
    obtain ⟨-, hl⟩ := h
    match l, hl with
    | [v], _ => rfl
  · rw [if_neg h]
    rfl

/-- The dimensions stored by a possibly-collapsed construction. -/
theorem make_collapse_dims (c : Bool) (l : List ℚ) (d : Dims) (o : ℚ) :
    (Quantity.make (collapseIf c l) d o).dimensions = d := by
  unfold collapseIf Quantity.make
  split <;> rfl

/-- The offset stored by a possibly-collapsed construction. -/
theorem make_collapse_off (c : Bool) (l : List ℚ) (d : Dims) (o : ℚ) :
    (Quantity.make (collapseIf c l) d o).offset = o := by
  unfold collapseIf Quantity.make
  split <;> rfl

/-- Element-wise, ((A + B) + o) - (B + 0) - o recovers A when the lists
have equal length. -/
theorem subRoundListEq (A : List ℚ) (B : List ℚ) (h : A.length = B.length)
    (o : ℚ) :
    (List.zipWith (fun p q => p - q)
      ((List.zipWith (· + ·) A B).map (fun p => p + o))
      (B.map (fun q => q + 0))).map (fun p => p - o) = A := by
  induction A generalizing B with
  | nil =>
    cases B with
    | nil => rfl
    | cons y s => simp at h
  | cons x r ih =>
    cases B with
    | nil => simp at h
    | cons y s =>
      simp only [List.zipWith_cons_cons, List.map_cons]
      rw [ih s (by simpa using h)]
      congr 1
      ring

/-- Element-wise, ((x + B) + o) - (B + 0) - o is the constant x. -/
theorem subRoundListConst (B : List ℚ) (x o : ℚ) :
    (List.zipWith (fun p q => p - q)
      ((B.map (fun w => x + w)).map (fun p => p + o))
      (B.map (fun q => q + 0))).map (fun p => p - o) =
      B.map (fun _ => x) := by
  induction B with
  | nil => rfl
  | cons y s ih =>
    simp only [List.map_cons, List.zipWith_cons_cons]
    rw [ih]
    congr 1
    ring

/-- Element-wise, (((A + y) + o) - (y + 0)) - o recovers A. -/
theorem subRoundListSingle (A : List ℚ) (y o : ℚ) :
    (((A.map (fun p => p + y)).map (fun p => p + o)).map
      (fun p => p - (y + 0))).map (fun p => p - o) = A := by
  rw [List.map_map, List.map_map, List.map_map]
  refine mapIdOfEq A _ (fun p => ?_)
  simp only [Function.comp]
  ring

/-- With the collapse flag unset the result stays an array. -/
theorem collapseIf_false [Inhabited α] (l : List α) :
    collapseIf false l = .arr l := by
  simp [collapseIf]

/-- A collapsed boolean vector whose elements are all true is all-true. -/
theorem allTrue_collapseIf (c : Bool) (l : List Bool)
    (h : ∀ b ∈ l, b = true) : (collapseIf c l).allTrue := by
  unfold collapseIf
  by_cases hc : c = true ∧ l.length = 1
  · rw [if_pos hc]
    obtain ⟨-, hl⟩ := hc
    match l, hl with
    | [bb], _ =>
      show bb = true
      exact h bb (by simp)
  · rw [if_neg hc]
    exact h

/-- eq with the default (numeric 0) tolerance returns an all-true result
whenever the offset-adjusted magnitudes coincide: element-wise, or with
every element of self matching the single broadcast element of other. -/
theorem eqZeros (r a : Quantity) (hd : r.dimensions = a.dimensions)
    (H : r.magnitude.map (fun p => p + r.offset) =
           a.magnitude.map (fun p => p + a.offset) ∨
         ∃ c, a.magnitude.map (fun p => p + a.offset) = [c] ∧
           ∀ u ∈ r.magnitude.map (fun p => p + r.offset), u = c) :
    ∃ v, r.eq a (.num 0) = .ok v ∧ v.allTrue := by
  have hsd : r.sameDimensions a = true := (sameDimensions_iff r a).mpr hd
  have hF : ∀ u w : ℚ, u = w → (fun p q : ℚ =>
      match (jsCoerce r.magnitude).map (fun v => v * 0) with
      | none => (0 : ℤ)
      | some t => if q - p < -t then 1 else if q - p > t then -1 else 0)
      u w = 0 := by
    intro u w huw
    subst huw
    cases hjc : jsCoerce r.magnitude with
    | none => simp [hjc]
    | some v => simp [hjc]
  have htol : resolveTol r (.num 0) =
      .ok ((jsCoerce r.magnitude).map (fun v => v * 0)) := by
    simp [resolveTol]
  have hcmp : ∃ res : List ℤ, r.compare a (.num 0) true = .ok (.arr res) ∧
      ∀ z ∈ res, z = 0 := by
    unfold Quantity.compare
    rw [if_neg (by simp [hsd]), htol, exceptBindOk, arrayOp_singletonR,
      exceptBindOk, arrayOp_singletonR, exceptBindOk]
    rw [show (if (true : Bool) = true then false
      else r.isScalar && a.isScalar) = false from rfl]
    rcases H with Heq | ⟨c, hc, hall⟩
    · rw [Heq, arrayOp_eqLength _ _ _ rfl, exceptMapOk, collapseIf_false]
      refine ⟨_, rfl, ?_⟩
      intro z hz
      rw [List.zipWith_same] at hz
      obtain ⟨u, -, rfl⟩ := List.mem_map.mp hz
      exact hF u u rfl
    · rw [hc, arrayOp_singletonR, exceptMapOk, collapseIf_false]
      refine ⟨_, rfl, ?_⟩
      intro z hz
      obtain ⟨u, hu, rfl⟩ := List.mem_map.mp hz
      exact hF u c (hall u hu)
  obtain ⟨res, hcmpEq, hres⟩ := hcmp
  refine ⟨collapseIf (r.isScalar && a.isScalar)
    (res.map (fun z => z == (0 : ℤ))), ?_, ?_⟩
  · unfold Quantity.eq
    rw [hcmpEq, exceptBindOk]
    show (arrayOp res [(0 : ℤ)] _).map _ = _
    rw [arrayOp_singletonR, exceptMapOk]
  · refine allTrue_collapseIf _ _ (fun b hb => ?_)
    obtain ⟨z, hz, rfl⟩ := List.mem_map.mp hb
    simp [hres z hz]

/-- Reduction of add once the magnitude combination is known. -/
theorem add_general (a b : Quantity) (hd : a.dimensions = b.dimensions)
    (ho : b.offset = 0) (M : List ℚ)
    (hM : arrayOp a.magnitude b.magnitude (· + ·) = .ok M) :
    a.add b = .ok (Quantity.make (collapseIf (a.isScalar && b.isScalar) M)
      a.dimensions a.offset) := by
  unfold Quantity.add
  rw [if_neg (by simp [(sameDimensions_iff a b).mpr hd]),
    if_neg (by simp [ho]), hM, exceptMapOk]

/-- Reduction of sub against an offset-free subtrahend once the middle
difference list is known. -/
theorem sub_general (r1 b : Quantity) (hd1 : r1.dimensions = b.dimensions)
    (ho : b.offset = 0) (mid : List ℚ)
    (hmid : arrayOp (r1.magnitude.map (fun p => p + r1.offset))
      (b.magnitude.map (fun q => q + 0)) (fun p q => p - q) = .ok mid) :
    r1.sub b = .ok (Quantity.make (collapseIf (r1.isScalar && b.isScalar)
      (mid.map (fun p => p - r1.offset))) r1.dimensions r1.offset) := by
  unfold Quantity.sub
  rw [if_neg (by simp [(sameDimensions_iff r1 b).mpr hd1]),
    arrayOp_singletonR, exceptBindOk, ho, arrayOp_singletonR, exceptBindOk,
    hmid, exceptBindOk, if_neg (by simp), arrayOp_singletonR, exceptMapOk]

/-- Parsing a nonempty slash-free whitespace-free unit string is the single
term folded into the unit quantity, then the magnitude scaling. -/
theorem parse_single_section (units : List (Str × UnitDef))
    (prefixes : List (Str × ℚ)) (s : Str) (m : ℚ) (hne : s ≠ [])
    (hns : ∀ c ∈ s, c ≠ '/') (hnw : ∀ c ∈ s, ¬ isWs c = true) :
    quantityParse units prefixes m s =
      (quantityTerm units prefixes 1 1 0 (Quantity.ofNum 1) s).bind fun q =>
      (arrayOp q.magnitude [m] (· * ·)).map fun m' =>
        { q with magnitude := m' } := by
  unfold quantityParse
  simp only [ne_eq, hne, not_false_eq_true, if_true, ite_true,
    splitSlash_none s hns, List.length_cons, List.length_nil, gt_iff_lt,
    List.enum, List.enumFrom, List.foldlM, jsTrim_noWs s hnw,
    wsSplit_noWs s hnw, bind_pure]
  norm_num

/-- The per-term body on the sole term of a single-section string: an offset
unit passes through. -/
theorem quantityTerm_single (units : List (Str × UnitDef))
    (prefixes : List (Str × ℚ)) (s : Str) (acc : Quantity) (u : Quantity)
    (hg : getUnitQuantity units prefixes s = .ok u) (hω : u.offset ≠ 0) :
    quantityTerm units prefixes 1 1 0 acc s = .ok u := by
  unfold quantityTerm
  rw [hg, exceptBindOk, if_neg (by decide), exceptBindOk, if_neg hω,
    if_pos ⟨rfl, rfl⟩]

/-- A sole offset-unit term of a well-behaved unit string parses to the
resolved quantity itself (the magnitude scaling by 1 is the identity). -/
theorem parse_offset_single (units : List (Str × UnitDef))
    (prefixes : List (Str × ℚ)) (s : Str) (u : Quantity) (hne : s ≠ [])
    (hns : ∀ c ∈ s, c ≠ '/') (hnw : ∀ c ∈ s, ¬ isWs c = true)
    (hg : getUnitQuantity units prefixes s = .ok u) (hω : u.offset ≠ 0) :
    quantityParse units prefixes 1 s = .ok u := by
  rw [parse_single_section units prefixes s 1 hne hns hnw,
    quantityTerm_single units prefixes s (Quantity.ofNum 1) u hg hω,
    exceptBindOk, arrayOp_singletonR, exceptMapOk,
    mapIdOfEq u.magnitude _ (fun x => mul_one x)]

/-- A failing sole term makes the whole parse fail with the same error. -/
theorem parse_single_err (units : List (Str × UnitDef))
    (prefixes : List (Str × ℚ)) (s : Str) (e : Err) (hne : s ≠ [])
    (hns : ∀ c ∈ s, c ≠ '/') (hnw : ∀ c ∈ s, ¬ isWs c = true)
    (hg : quantityTerm units prefixes 1 1 0 (Quantity.ofNum 1) s =
      .error e) :
    quantityParse units prefixes m s = .error e := by
  rw [parse_single_section units prefixes s m hne hns hnw, hg,
    exceptBindErr]

/-- Parsing two whitespace-separated tokens in a single section folds both
terms with nTerms = 2. -/
theorem parse_pair_section (units : List (Str × UnitDef))
    (prefixes : List (Str × ℚ)) (A B : Str) (m : ℚ) (hAne : A ≠ [])
    (hBne : B ≠ []) (hAs : ∀ c ∈ A, c ≠ '/') (hBs : ∀ c ∈ B, c ≠ '/')
    (hAw : ∀ c ∈ A, ¬ isWs c = true) (hBw : ∀ c ∈ B, ¬ isWs c = true) :
    quantityParse units prefixes m (A ++ ' ' :: B) =
      ((quantityTerm units prefixes 1 2 0 (Quantity.ofNum 1) A).bind
        fun q1 => quantityTerm units prefixes 1 2 0 q1 B).bind fun q =>
      (arrayOp q.magnitude [m] (· * ·)).map fun m' =>
        { q with magnitude := m' } := by
  have hne : A ++ ' ' :: B ≠ [] := by simp
  have hns : ∀ c ∈ A ++ ' ' :: B, c ≠ '/' := by
    intro c hc
    rcases List.mem_append.mp hc with h | h
    · exact hAs c h
    · rcases List.mem_cons.mp h with rfl | h
      · decide
      · exact hBs c h
  unfold quantityParse
  simp only [ne_eq, hne, not_false_eq_true, if_true, ite_true,
    splitSlash_none (A ++ ' ' :: B) hns, List.length_cons, List.length_nil,
    gt_iff_lt, List.enum, List.enumFrom, List.foldlM,
    jsTrim_pair A B ' ' hAne hBne hAw hBw,
    wsSplit_pair A B hBne hAw hBw, bind_pure]
  norm_num
  rfl

/-- Parsing a two-section string folds the sole numerator term with
nSections = 2, then the denominator section with si = 1. -/
theorem parse_two_sections (units : List (Str × UnitDef))
    (prefixes : List (Str × ℚ)) (A B : Str) (m : ℚ)
    (hAs : ∀ c ∈ A, c ≠ '/') (hAw : ∀ c ∈ A, ¬ isWs c = true)
    (hBs : ∀ c ∈ B, c ≠ '/') :
    quantityParse units prefixes m (A ++ '/' :: B) =
      ((quantityTerm units prefixes 2 1 0 (Quantity.ofNum 1) A).bind
        fun q1 =>
          (wsSplit (jsTrim B)).foldlM
            (fun acc sym =>
              quantityTerm units prefixes 2 (wsSplit (jsTrim B)).length 1
                acc sym) q1).bind fun q =>
      (arrayOp q.magnitude [m] (· * ·)).map fun m' =>
        { q with magnitude := m' } := by
  have hne : A ++ '/' :: B ≠ [] := by simp
  unfold quantityParse
  simp only [ne_eq, hne, not_false_eq_true, if_true, ite_true,
    splitSlash_app A B hAs, splitSlash_none B hBs, List.length_cons,
    List.length_nil, gt_iff_lt, List.enum, List.enumFrom, List.foldlM,
    jsTrim_noWs A hAw, wsSplit_noWs A hAw, bind_pure]
  norm_num
  rfl

/-- Two runs of plain characters around a non-slash separator contain no
slash. -/
theorem plainSep_slash (A : Str) (sep : Char) (B : Str)
    (hA : ∀ c ∈ A, plainChar c) (hB : ∀ c ∈ B, plainChar c)
    (hsep : sep ≠ '/') : ∀ c ∈ A ++ sep :: B, c ≠ '/' := by
  intro c hc
  rcases List.mem_append.mp hc with h | h
  · exact (hA c h).2.2.2.1
  · rcases List.mem_cons.mp h with rfl | h
    · exact hsep
    · exact (hB c h).2.2.2.1

/-- Two runs of plain characters around a non-whitespace separator contain
no whitespace. -/
theorem plainSep_ws (A : Str) (sep : Char) (B : Str)
    (hA : ∀ c ∈ A, plainChar c) (hB : ∀ c ∈ B, plainChar c)
    (hsep : ¬ isWs sep = true) : ∀ c ∈ A ++ sep :: B, ¬ isWs c = true := by
  intro c hc
  rcases List.mem_append.mp hc with h | h
  · exact (hA c h).2.2.2.2
  · rcases List.mem_cons.mp h with rfl | h
    · exact hsep
    · exact (hB c h).2.2.2.2

/-! ## Claim theorems -/

/-- C1 (code_bug evaluation): root never raises the fractional-dimension
error; taking the square root of 1 m (length exponent 1, not divisible
by 2) succeeds and returns the fractional dimension vector with length
exponent 1/2, because the source's divisibility check erroneously retests
the already-validated root n instead of the updated exponent. -/
theorem pqm_c1_root_fractional_dimension_bug :
    (oneMeter.root 2).map Quantity.dimensions = .ok (mkDims [0, 1/2]) := by
  decide

/-- C4 (code_bug evaluation): inSI, whose doc comment says it can represent
any unit, fails with UnitListInsufficientError on the quantity 1 rad: the
hardcoded SI candidate list of the current source has no rotation unit, so
the greedy search cannot reduce a rotation exponent and stalls at once. -/
theorem pqm_c4_inSI_rotation_bug :
    Quantity.inSI unitsTable prefixTable oneRadian =
      .error .unitListInsufficient := by
  decide

/-- C8: for every quantity q, whatever its magnitude, dimensions and offset,
q.pow 0 returns the dimensionless unit quantity: magnitude 1, scalar, all
dimension exponents 0, offset 0. -/
theorem pqm_c8_pow_zero (q : Quantity) :
    q.pow 0 = .ok ⟨[1], true, zeroDims, 0⟩ := by
  have h1 : ¬ (¬ jsIsInteger (0 : ℚ) = true) := by decide
  have h2 : ¬ (q.offset ≠ 0 ∧ (0 : ℚ) > 1) := by
    rintro ⟨-, h⟩
    norm_num at h
  rw [Quantity.pow, if_neg h1, if_neg h2, if_pos rfl]
  rfl

/-- C2 (counterexample): contrary to the claim, a bracketed prefix on an
offset unit parses successfully: "[m]degC" yields the milli-scaled degC
quantity with its offset preserved, rather than failing with
CompoundOffsetUnitError. -/
theorem pqm_c2_counterexample :
    quantityParse unitsTable prefixTable 1 (str "[m]degC") =
      .ok ⟨[1/1000], true, tempDims, 5463/20⟩ := by
  decide

/-- C2 (amended): over any unit and prefix registry, a nonempty plain term
that resolves to an offset unit may only appear as the sole term of a
single-section expression.  In that position it parses with its offset
preserved; any resolvable bracketed prefix is accepted and scales only the
magnitude (offset preserved); any power whose parseInt value exceeds 1
fails with OffsetPowerError; any power with negative parseInt value
succeeds with the offset preserved; any second whitespace-separated term
and any second section make parsing fail with CompoundOffsetUnitError; and
the unit in the denominator under an offset-free resolvable numerator fails
with OffsetInvertError. -/
theorem pqm_c2_amended (units : List (Str × UnitDef))
    (prefixes : List (Str × ℚ)) (base : Str) (ud : UnitDef)
    (hb : base ≠ []) (hbp : ∀ c ∈ base, plainChar c)
    (hu : lookupStr units base = some ud)
    (hω : ud.o.getD 0 ≠ 0) :
    (quantityParse units prefixes 1 base =
      .ok ⟨[ud.s], true, ud.d, ud.o.getD 0⟩) ∧
    (∀ p v, p ≠ [] → (∀ c ∈ p, plainChar c) →
      lookupStr prefixes p = some v →
      quantityParse units prefixes 1 ('[' :: p ++ (']' :: base)) =
        .ok ⟨[ud.s * v], true, ud.d, ud.o.getD 0⟩) ∧
    (∀ t k, (∀ c ∈ t, plainChar c) → jsParseInt t = some k → 1 < k →
      quantityParse units prefixes 1 (base ++ '^' :: t) =
        .error .offsetPower) ∧
    (∀ t k, (∀ c ∈ t, plainChar c) → jsParseInt t = some k → k < 0 →
      quantityParse units prefixes 1 (base ++ '^' :: t) =
        .ok ⟨[jsPow ud.s (k : ℚ)], true, fun i => ud.d i * (k : ℚ),
          ud.o.getD 0⟩) ∧
    (∀ w, w ≠ [] → (∀ c ∈ w, c ≠ '/' ∧ ¬ isWs c = true) →
      quantityParse units prefixes 1 (base ++ ' ' :: w) =
        .error .compoundOffsetUnit) ∧
    (∀ w, (∀ c ∈ w, c ≠ '/') →
      quantityParse units prefixes 1 (base ++ '/' :: w) =
        .error .compoundOffsetUnit) ∧
    (∀ w wd, w ≠ [] → (∀ c ∈ w, plainChar c) →
      lookupStr units w = some wd → wd.o.getD 0 = 0 →
      quantityParse units prefixes 1 (w ++ '/' :: base) =
        .error .offsetInvert) := by
  have hbm : ∀ c ∈ base, c ≠ '[' ∧ c ≠ ']' ∧ c ≠ '^' :=
    fun c hc => ⟨(hbp c hc).1, (hbp c hc).2.1, (hbp c hc).2.2.1⟩
  have hbs : ∀ c ∈ base, c ≠ '/' := fun c hc => (hbp c hc).2.2.2.1
  have hbw : ∀ c ∈ base, ¬ isWs c = true := fun c hc => (hbp c hc).2.2.2.2
  have hplain := getUnit_plain units prefixes base ud hb hbm hu
  refine ⟨?_, ?_, ?_, ?_, ?_, ?_, ?_⟩
  · exact parse_offset_single units prefixes base _ hb hbs hbw hplain hω
  · intro p v hp hpp hv
    have hpm : ∀ c ∈ p, c ≠ '[' ∧ c ≠ ']' ∧ c ≠ '^' :=
      fun c hc => ⟨(hpp c hc).1, (hpp c hc).2.1, (hpp c hc).2.2.1⟩
    have hg := getUnit_bracket units prefixes p base ud v hp hpm hb hbm hu hv
    have hne : '[' :: p ++ (']' :: base) ≠ [] := by simp
    have hns : ∀ c ∈ '[' :: p ++ (']' :: base), c ≠ '/' := by
      intro c hc
      rcases List.mem_append.mp hc with h | h
      · rcases List.mem_cons.mp h with rfl | h
        · decide
        · exact (hpp c h).2.2.2.1
      · rcases List.mem_cons.mp h with rfl | h
        · decide
        · exact hbs c h
    have hnw : ∀ c ∈ '[' :: p ++ (']' :: base), ¬ isWs c = true := by
      intro c hc
      rcases List.mem_append.mp hc with h | h
      · rcases List.mem_cons.mp h with rfl | h
        · decide
        · exact (hpp c h).2.2.2.2
      · rcases List.mem_cons.mp h with rfl | h
        · decide
        · exact hbw c h
    exact parse_offset_single units prefixes _ _ hne hns hnw hg hω
  · intro t k htp hk hk1
    have ht : t ≠ [] := by
      intro h
      rw [h] at hk
      exact Option.noConfusion hk
    have htm : ∀ c ∈ t, c ≠ '[' ∧ c ≠ ']' ∧ c ≠ '^' :=
      fun c hc => ⟨(htp c hc).1, (htp c hc).2.1, (htp c hc).2.2.1⟩
    have hbody := getUnit_power_body units prefixes base t ud hb hbm htm ht
      hu
    have hgerr : getUnitQuantity units prefixes (base ++ '^' :: t) =
        .error .offsetPower := by
      rw [hbody, hk]
      show (if k = 0 then (.error .invalidPower : Except Err ℚ)
        else .ok (k : ℚ)).bind _ = _
      rw [if_neg (by omega : ¬ k = 0), exceptBindOk,
        if_pos (by exact_mod_cast (show k ≠ 1 by omega) : ((k : ℚ)) ≠ 1)]
      unfold Quantity.pow
      rw [if_neg (by simp [jsIsInteger, Rat.den_intCast]),
        if_pos ⟨hω, by exact_mod_cast hk1⟩]
    have hterm : quantityTerm units prefixes 1 1 0 (Quantity.ofNum 1)
        (base ++ '^' :: t) = .error .offsetPower := by
      unfold quantityTerm
      rw [hgerr, exceptBindErr]
    exact parse_single_err units prefixes _ _ (by simp)
      (plainSep_slash base '^' t hbp htp (by decide))
      (plainSep_ws base '^' t hbp htp (by decide)) hterm
  · intro t k htp hk hkneg
    have ht : t ≠ [] := by
      intro h
      rw [h] at hk
      exact Option.noConfusion hk
    have htm : ∀ c ∈ t, c ≠ '[' ∧ c ≠ ']' ∧ c ≠ '^' :=
      fun c hc => ⟨(htp c hc).1, (htp c hc).2.1, (htp c hc).2.2.1⟩
    have hbody := getUnit_power_body units prefixes base t ud hb hbm htm ht
      hu
    have hgok : getUnitQuantity units prefixes (base ++ '^' :: t) =
        .ok ⟨[jsPow ud.s (k : ℚ)], true, fun i => ud.d i * (k : ℚ),
          ud.o.getD 0⟩ := by
      rw [hbody, hk]
      show (if k = 0 then (.error .invalidPower : Except Err ℚ)
        else .ok (k : ℚ)).bind _ = _
      rw [if_neg (by omega : ¬ k = 0), exceptBindOk,
        if_pos (by exact_mod_cast (show k ≠ 1 by omega) : ((k : ℚ)) ≠ 1)]
      unfold Quantity.pow
      have hklt : ((k : ℚ)) < 0 := by exact_mod_cast hkneg
      rw [if_neg (by simp [jsIsInteger, Rat.den_intCast]),
        if_neg (fun hcon => absurd hcon.2 (by linarith)),
        if_neg (by exact_mod_cast (show k ≠ 0 by omega) : ¬ ((k : ℚ)) = 0),
        arrayOp_singletonR, exceptMapOk]
      simp [Quantity.make, collapseIf]
    exact parse_offset_single units prefixes _ _ (by simp)
      (plainSep_slash base '^' t hbp htp (by decide))
      (plainSep_ws base '^' t hbp htp (by decide)) hgok hω
  · intro w hwne hwp
    have hws : ∀ c ∈ w, c ≠ '/' := fun c hc => (hwp c hc).1
    have hww : ∀ c ∈ w, ¬ isWs c = true := fun c hc => (hwp c hc).2
    rw [parse_pair_section units prefixes base w 1 hb hwne hbs hws hbw hww]
    have hterm : quantityTerm units prefixes 1 2 0 (Quantity.ofNum 1)
        base = .error .compoundOffsetUnit := by
      unfold quantityTerm
      rw [hplain, exceptBindOk, if_neg (by decide), exceptBindOk,
        if_neg hω, if_neg (by decide)]
    rw [hterm, exceptBindErr, exceptBindErr]
  · intro w hws
    rw [parse_two_sections units prefixes base w 1 hbs hbw hws]
    have hterm : quantityTerm units prefixes 2 1 0 (Quantity.ofNum 1)
        base = .error .compoundOffsetUnit := by
      unfold quantityTerm
      rw [hplain, exceptBindOk, if_neg (by decide), exceptBindOk,
        if_neg hω, if_neg (by decide)]
    rw [hterm, exceptBindErr, exceptBindErr]
  · intro w wd hwne hwp hwl hwo
    have hwm : ∀ c ∈ w, c ≠ '[' ∧ c ≠ ']' ∧ c ≠ '^' :=
      fun c hc => ⟨(hwp c hc).1, (hwp c hc).2.1, (hwp c hc).2.2.1⟩
    have hws : ∀ c ∈ w, c ≠ '/' := fun c hc => (hwp c hc).2.2.2.1
    have hww : ∀ c ∈ w, ¬ isWs c = true := fun c hc => (hwp c hc).2.2.2.2
    rw [parse_two_sections units prefixes w base 1 hws hww hbs]
    have hgw := getUnit_plain units prefixes w wd hwne hwm hwl
    have hterm1 : quantityTerm units prefixes 2 1 0 (Quantity.ofNum 1)
        w = .ok ⟨[wd.s], true, fun i => zeroDims i + wd.d i, 0⟩ := by
      unfold quantityTerm
      rw [hgw, exceptBindOk, if_neg (by decide), exceptBindOk, if_pos hwo]
      unfold Quantity.mul Quantity.ofNum
      rw [if_neg (by simp [hwo]), arrayOp_singletonR, exceptMapOk]
      simp [Quantity.make, collapseIf]
    have hterm2 : ∀ acc, quantityTerm units prefixes 2 1 1 acc base =
        .error .offsetInvert := by
      intro acc
      unfold quantityTerm
      rw [hplain, exceptBindOk, if_pos (by decide)]
      unfold Quantity.inv
      rw [if_pos hω, exceptBindErr]
    rw [hterm1, exceptBindOk]
    simp only [jsTrim_noWs base hbw, wsSplit_noWs base hbw, List.foldlM,
      bind_pure, List.length_cons, List.length_nil]
    rw [hterm2 _, exceptBindErr]

/-- C2 witness: the amended statement applied to the registry of the
source, the unit degC and the power text 2. -/
theorem pqm_c2_witness :
    (str "degC") ≠ [] ∧ (∀ c ∈ str "degC", plainChar c) ∧
    lookupStr unitsTable (str "degC") =
      some ⟨1, mkDims [0, 0, 0, 1], some (5463/20)⟩ ∧
    ((⟨1, mkDims [0, 0, 0, 1], some (5463/20)⟩ : UnitDef).o.getD 0 ≠ 0) ∧
    (∀ c ∈ str "2", plainChar c) ∧ jsParseInt (str "2") = some 2 ∧
    ((1 : ℤ) < 2) ∧
    quantityParse unitsTable prefixTable 1 (str "degC" ++ '^' :: str "2") =
      .error .offsetPower :=
  ⟨by decide, by decide, by decide, by decide, by decide, by decide,
    by decide,
    (pqm_c2_amended unitsTable prefixTable (str "degC")
      ⟨1, mkDims [0, 0, 0, 1], some (5463/20)⟩ (by decide) (by decide)
      (by decide) (by decide)).2.2.1 (str "2") 2 (by decide) (by decide)
      (by decide)⟩

/-- C3 (amended): for every term over a resolvable, offset-free unit symbol
with an explicit '^' power marker and nonempty marker-free power text,
resolution fails with InvalidPowerError exactly when JS parseInt of the
power text yields NaN or 0 (no leading integer, or leading-integer value
0); otherwise it succeeds and the applied power equals parseInt's
leading-integer value k: the magnitude is raised to k and every dimension
exponent is scaled by k. -/
theorem pqm_c3_amended (base t : Str) (ud : UnitDef)
    (hb : base ≠ [])
    (hbm : ∀ c ∈ base, c ≠ '[' ∧ c ≠ ']' ∧ c ≠ '^')
    (htm : ∀ c ∈ t, c ≠ '[' ∧ c ≠ ']' ∧ c ≠ '^')
    (ht : t ≠ [])
    (hu : lookupStr unitsTable base = some ud) (ho : ud.o = none) :
    (jsParseInt t = none →
      getUnitQuantity unitsTable prefixTable (base ++ '^' :: t) =
        .error .invalidPower) ∧
    (jsParseInt t = some 0 →
      getUnitQuantity unitsTable prefixTable (base ++ '^' :: t) =
        .error .invalidPower) ∧
    (∀ k : ℤ, jsParseInt t = some k → k ≠ 0 →
      getUnitQuantity unitsTable prefixTable (base ++ '^' :: t) =
        .ok ⟨[jsPow ud.s (k : ℚ)], true, fun i => ud.d i * (k : ℚ), 0⟩) := by
  have hbody := getUnit_power_body unitsTable prefixTable base t ud hb hbm
    htm ht hu
  simp only [ho, Option.getD_none] at hbody
  refine ⟨?_, ?_, ?_⟩
  · intro h
    rw [hbody, h]
    rfl
  · intro h
    rw [hbody, h]
    rfl
  · intro k hk hknz
    rw [hbody, hk]
    show (if k = 0 then (.error .invalidPower : Except Err ℚ)
      else .ok (k : ℚ)).bind _ = _
    rw [if_neg hknz, exceptBindOk]
    by_cases hk1 : k = 1
    · subst hk1
      rw [if_neg (by norm_num)]
      have hpow : jsPow ud.s ((1 : ℤ) : ℚ) = ud.s := by
        simp [jsPow]
      have hdims : (fun i => ud.d i * ((1 : ℤ) : ℚ)) = ud.d := by
        funext i
        simp
      rw [hpow, hdims]
    · have hc1 : ((k : ℚ)) ≠ 1 := by
        exact_mod_cast hk1
      rw [if_pos hc1]
      unfold Quantity.pow
      rw [if_neg (by simp [jsIsInteger, Rat.den_intCast]),
        if_neg (by simp), if_neg (by exact_mod_cast hknz),
        arrayOp_singletonR, exceptMapOk]
      simp [Quantity.make, collapseIf]

/-- C3 witness: the amended statement applied to the unit m and the
hexadecimal power text 0xA, whose parseInt value is 10. -/
theorem pqm_c3_witness :
    lookupStr unitsTable (str "m") = some ⟨1, mkDims [0, 1], none⟩ ∧
    jsParseInt (str "0xA") = some 10 ∧
    getUnitQuantity unitsTable prefixTable (str "m" ++ '^' :: str "0xA") =
      .ok ⟨[jsPow (1 : ℚ) ((10 : ℤ) : ℚ)],
        true, fun i => mkDims [0, 1] i * ((10 : ℤ) : ℚ), 0⟩ :=
  ⟨by decide, by decide,
    (pqm_c3_amended (str "m") (str "0xA") ⟨1, mkDims [0, 1], none⟩
      (by decide) (by decide) (by decide) (by decide) (by decide)
      rfl).2.2 10 (by decide) (by decide)⟩

/-- C3 (counterexample): contrary to the claim, the non-integer power text
"2.5" does not make parsing fail: parseInt keeps the leading integer, so
"m^2.5" resolves to m^2. -/
theorem pqm_c3_counterexample :
    quantityParse unitsTable prefixTable 1 (str "m^2.5") =
      .ok ⟨[1], true, mkDims [0, 2], 0⟩ := by
  decide

/-- C5: for quantities with one-element magnitudes and equal dimension
vectors, subtraction returns magnitude (a.magnitude + a.offset) -
(b.magnitude + b.offset) with offset 0 when b.offset is nonzero, and that
difference minus a.offset with offset a.offset when b.offset is zero; with
different dimension vectors it fails with IncompatibleUnitsError. -/
theorem pqm_c5_subtract (a b : Quantity) (x y : ℚ)
    (hma : a.magnitude = [x]) (hmb : b.magnitude = [y]) :
    (a.dimensions = b.dimensions →
      (b.offset ≠ 0 → ∃ r, a.sub b = .ok r ∧
        r.magnitude = [(x + a.offset) - (y + b.offset)] ∧
        r.offset = 0 ∧ r.dimensions = a.dimensions) ∧
      (b.offset = 0 → ∃ r, a.sub b = .ok r ∧
        r.magnitude = [((x + a.offset) - (y + b.offset)) - a.offset] ∧
        r.offset = a.offset ∧ r.dimensions = a.dimensions)) ∧
    (a.dimensions ≠ b.dimensions → a.sub b = .error .incompatibleUnits) := by
  constructor
  · intro hd
    have hsd : a.sameDimensions b = true := (sameDimensions_iff a b).mpr hd
    have hsub : a.sub b =
        (if b.offset ≠ 0 then
          .ok (Quantity.make (.arr [(x + a.offset) - (y + b.offset)])
            a.dimensions 0)
        else
          (arrayOp [(x + a.offset) - (y + b.offset)] [a.offset]
            (· - ·)).map fun m' =>
            Quantity.make (collapseIf (a.isScalar && b.isScalar) m')
              a.dimensions a.offset) := by
      unfold Quantity.sub
      rw [if_neg (by simp [hsd]), hma, hmb, arrayOp_singletonR,
        arrayOp_singletonR, exceptBindOk, exceptBindOk]
      simp only [List.map_cons, List.map_nil]
      rw [arrayOp_singletonR, exceptBindOk]
      simp only [List.map_cons, List.map_nil]
    constructor
    · intro hbo
      refine ⟨Quantity.make (.arr [(x + a.offset) - (y + b.offset)])
        a.dimensions 0, ?_, rfl, rfl, rfl⟩
      rw [hsub, if_pos hbo]
    · intro hbo
      rw [hsub, if_neg (by simp [hbo]), arrayOp_singletonR, exceptMapOk]
      simp only [List.map_cons, List.map_nil]
      rw [make_collapseIf_singleton]
      exact ⟨_, rfl, rfl, rfl, rfl⟩
  · intro hne
    have hsd : ¬ a.sameDimensions b = true := by
      intro h
      exact hne ((sameDimensions_iff a b).mp h)
    unfold Quantity.sub
    rw [if_pos (by simp [hsd])]

/-- C5 witness: subtracting 5 degC from 10 degC (both offset quantities)
yields the delta 5 with offset 0. -/
theorem pqm_c5_witness :
    ∃ r, Quantity.sub ⟨[10], true, tempDims, 5463/20⟩
        ⟨[5], true, tempDims, 5463/20⟩ = .ok r ∧
      r.magnitude = [(10 + 5463/20) - (5 + 5463/20)] ∧
      r.offset = 0 ∧ r.dimensions = tempDims :=
  ((pqm_c5_subtract ⟨[10], true, tempDims, 5463/20⟩
      ⟨[5], true, tempDims, 5463/20⟩ 10 5 rfl rfl).1 rfl).1 (by norm_num)

/-- C6: every binary operation combines magnitudes through arrayOp, which
zips equal-length operands element-wise, broadcasts a length-1 operand over
the other, and fails with ArrayLengthMismatchError on any other length
mismatch; consequently adding a scalar quantity to an array quantity of
length K always yields an array-tagged result of length K, even when
K = 1. -/
theorem pqm_c6_broadcast :
    (∀ (l1 l2 : List ℚ) (op : ℚ → ℚ → ℚ),
      (l1.length = l2.length →
        arrayOp l1 l2 op = .ok (List.zipWith op l1 l2)) ∧
      (l1.length = 1 → arrayOp l1 l2 op = .ok (l2.map (op l1.headI))) ∧
      (l2.length = 1 →
        arrayOp l1 l2 op = .ok (l1.map (fun a => op a l2.headI))) ∧
      (l1.length ≠ l2.length → l1.length ≠ 1 → l2.length ≠ 1 →
        arrayOp l1 l2 op = .error .arrayLengthMismatch)) ∧
    (∀ (a b : Quantity) (K : ℕ), a.isScalar = true → b.isScalar = false →
      a.magnitude.length = 1 → b.magnitude.length = K →
      a.dimensions = b.dimensions → b.offset = 0 →
      ∃ r, a.add b = .ok r ∧ r.isScalar = false ∧
        r.magnitude.length = K) := by
  constructor
  · intro l1 l2 op
    refine ⟨fun h => arrayOp_eqLength l1 l2 op h, fun h1 => ?_,
      fun h2 => ?_, fun hne h1 h2 => ?_⟩
    · match l1, h1 with
      | [c], _ => simpa using arrayOp_singletonL c l2 op
    · match l2, h2 with
      | [c], _ => simpa using arrayOp_singletonR l1 c op
    · rw [arrayOp, if_neg hne, if_neg h1, if_neg h2]
  · intro a b K hsa hsb hla hlb hd ho
    have hsd : a.sameDimensions b = true := (sameDimensions_iff a b).mpr hd
    match hx : a.magnitude, hla with
    | [x], _ =>
      have : a.add b = .ok (Quantity.make
          (collapseIf (a.isScalar && b.isScalar) (b.magnitude.map (x + ·)))
          a.dimensions a.offset) := by
        unfold Quantity.add
        rw [if_neg (by simp [hsd]), if_neg (by simp [ho]), hx,
          arrayOp_singletonL, exceptMapOk]
      rw [hsa, hsb] at this
      refine ⟨_, this, ?_, ?_⟩
      · simp [collapseIf, Quantity.make]
      · simp [collapseIf, Quantity.make, hlb]

/-- C6 witness: the broadcast characterization applied at concrete inputs,
including adding a scalar to a one-element array, which stays an array. -/
theorem pqm_c6_witness :
    arrayOp [(1 : ℚ), 2] [(10 : ℚ), 20, 30] (· + ·) =
      .error .arrayLengthMismatch ∧
    ∃ r, Quantity.add ⟨[5], true, lenDims, 0⟩ ⟨[7], false, lenDims, 0⟩ =
        .ok r ∧ r.isScalar = false ∧ r.magnitude.length = 1 :=
  ⟨(pqm_c6_broadcast.1 [(1 : ℚ), 2] [(10 : ℚ), 20, 30] (· + ·)).2.2.2
      (by decide) (by decide) (by decide),
   pqm_c6_broadcast.2 ⟨[5], true, lenDims, 0⟩ ⟨[7], false, lenDims, 0⟩ 1
      rfl rfl rfl rfl rfl rfl⟩

/-- C10: an offset (affine) quantity accepts pow for every integer n at
most 1 -- n = 1 returns the quantity unchanged, negative n returns the
element-wise power with dimensions scaled by n and the offset preserved --
while invert always fails on it, so power(-1) inverts an affine quantity
even though invert() rejects it. -/
theorem pqm_c10_offset_power (q : Quantity) (n : ℤ)
    (hoff : q.offset ≠ 0) (hn : n ≤ 1)
    (hwf : q.isScalar = true → q.magnitude.length = 1) :
    (∃ r, q.pow ((n : ℤ) : ℚ) = .ok r) ∧
    q.pow 1 = .ok q ∧
    (n < 0 → q.pow ((n : ℤ) : ℚ) =
      .ok ⟨q.magnitude.map (fun m => jsPow m ((n : ℤ) : ℚ)), q.isScalar,
        fun i => q.dimensions i * ((n : ℤ) : ℚ), q.offset⟩) ∧
    q.inv = .error .offsetInvert := by
  have hint : jsIsInteger ((n : ℤ) : ℚ) = true := by
    simp [jsIsInteger, Rat.den_intCast]
  have hgt : ¬ (q.offset ≠ 0 ∧ ((n : ℤ) : ℚ) > 1) := by
    rintro ⟨-, h⟩
    rw [show ((1 : ℚ)) = ((1 : ℤ) : ℚ) by norm_num] at h
    exact absurd (by exact_mod_cast h) (not_lt.mpr hn)
  have hmap : ∀ m : ℚ, jsPow m ((1 : ℤ) : ℚ) = m := by
    intro m
    simp [jsPow]
  refine ⟨?_, ?_, ?_, ?_⟩
  · by_cases h0 : ((n : ℤ) : ℚ) = 0
    · rw [Quantity.pow, if_neg (by simp [hint]), if_neg hgt, if_pos h0]
      exact ⟨_, rfl⟩
    · rw [Quantity.pow, if_neg (by simp [hint]), if_neg hgt, if_neg h0,
        arrayOp_singletonR, exceptMapOk]
      exact ⟨_, rfl⟩
  · have h1 : ((1 : ℚ)) = ((1 : ℤ) : ℚ) := by norm_num
    rw [Quantity.pow, if_neg (by decide),
      if_neg (by rintro ⟨-, h⟩; norm_num at h), if_neg (by norm_num),
      arrayOp_singletonR, exceptMapOk, h1]
    have : q.magnitude.map (fun a => jsPow a ((1 : ℤ) : ℚ)) = q.magnitude :=
      mapIdOfEq _ _ hmap
    rw [this, make_collapseIf_id q.isScalar q.magnitude _ _ hwf]
    have hd : (fun i => q.dimensions i * ((1 : ℤ) : ℚ)) = q.dimensions := by
      funext i
      simp
    rw [hd]
  · intro hneg
    have h0 : ¬ ((n : ℤ) : ℚ) = 0 := by
      simpa using (by omega : n ≠ 0)
    rw [Quantity.pow, if_neg (by simp [hint]), if_neg hgt, if_neg h0,
      arrayOp_singletonR, exceptMapOk,
      make_collapseIf_id _ _ _ _ (fun hs => by simp [hwf hs])]
  · rw [Quantity.inv, if_pos hoff]

/-- C7: for all quantities a and b with equal dimension vectors, b offset
free (so add is permitted), and broadcast-compatible magnitude lengths,
a.add(b).sub(b).eq(a) succeeds and holds throughout -- exactly, since the
rational model of the arithmetic is exact. -/
theorem pqm_c7_add_sub_roundtrip (a b : Quantity)
    (hd : a.dimensions = b.dimensions) (ho : b.offset = 0)
    (hlen : a.magnitude.length = b.magnitude.length ∨
      a.magnitude.length = 1 ∨ b.magnitude.length = 1) :
    ∃ r1 r2 v, a.add b = .ok r1 ∧ r1.sub b = .ok r2 ∧
      r2.eq a (.num 0) = .ok v ∧ v.allTrue := by
  rcases hlen with hjk | hj1 | hk1
  · -- equal lengths: element-wise combination
    set R1 := Quantity.make (collapseIf (a.isScalar && b.isScalar)
      (List.zipWith (· + ·) a.magnitude b.magnitude)) a.dimensions a.offset
      with hR1
    have hadd : a.add b = .ok R1 :=
      add_general a b hd ho _ (arrayOp_eqLength _ _ _ hjk)
    have hdim1 : R1.dimensions = a.dimensions := make_collapse_dims _ _ _ _
    have hmag1 : R1.magnitude =
        List.zipWith (· + ·) a.magnitude b.magnitude :=
      make_collapse_mag _ _ _ _
    have hoff1 : R1.offset = a.offset := make_collapse_off _ _ _ _
    have hmid : arrayOp (R1.magnitude.map (fun p => p + R1.offset))
        (b.magnitude.map (fun q => q + 0)) (fun p q => p - q) = .ok
        (List.zipWith (fun p q => p - q)
          ((List.zipWith (· + ·) a.magnitude b.magnitude).map
            (fun p => p + a.offset))
          (b.magnitude.map (fun q => q + 0))) := by
      rw [hmag1, hoff1]
      exact arrayOp_eqLength _ _ _ (by simp [hjk])
    have hsub := sub_general R1 b (hdim1.trans hd) ho _ hmid
    rw [hoff1, hdim1, subRoundListEq a.magnitude b.magnitude hjk a.offset]
      at hsub
    obtain ⟨v, hv, hvt⟩ := eqZeros
      (Quantity.make (collapseIf (R1.isScalar && b.isScalar) a.magnitude)
        a.dimensions a.offset) a (make_collapse_dims _ _ _ _)
      (Or.inl (by rw [make_collapse_mag, make_collapse_off]))
    exact ⟨R1, _, v, hadd, hsub, hv, hvt⟩
  · -- a is a one-element magnitude broadcast over b
    obtain ⟨x, hx⟩ : ∃ x, a.magnitude = [x] := by
      match hv : a.magnitude, hj1 with
      | [x], _ => exact ⟨x, rfl⟩
    have hM : arrayOp a.magnitude b.magnitude (· + ·) =
        .ok (b.magnitude.map (fun w => x + w)) := by
      rw [hx]
      exact arrayOp_singletonL x b.magnitude (· + ·)
    set R1 := Quantity.make (collapseIf (a.isScalar && b.isScalar)
      (b.magnitude.map (fun w => x + w))) a.dimensions a.offset with hR1
    have hadd : a.add b = .ok R1 := add_general a b hd ho _ hM
    have hdim1 : R1.dimensions = a.dimensions := make_collapse_dims _ _ _ _
    have hmag1 : R1.magnitude = b.magnitude.map (fun w => x + w) :=
      make_collapse_mag _ _ _ _
    have hoff1 : R1.offset = a.offset := make_collapse_off _ _ _ _
    have hmid : arrayOp (R1.magnitude.map (fun p => p + R1.offset))
        (b.magnitude.map (fun q => q + 0)) (fun p q => p - q) = .ok
        (List.zipWith (fun p q => p - q)
          ((b.magnitude.map (fun w => x + w)).map (fun p => p + a.offset))
          (b.magnitude.map (fun q => q + 0))) := by
      rw [hmag1, hoff1]
      exact arrayOp_eqLength _ _ _ (by simp)
    have hsub := sub_general R1 b (hdim1.trans hd) ho _ hmid
    rw [hoff1, hdim1, subRoundListConst b.magnitude x a.offset] at hsub
    have hall : ∀ u ∈ (Quantity.make
        (collapseIf (R1.isScalar && b.isScalar)
          (b.magnitude.map (fun _ => x))) a.dimensions
        a.offset).magnitude.map (fun p => p +
          (Quantity.make (collapseIf (R1.isScalar && b.isScalar)
            (b.magnitude.map (fun _ => x))) a.dimensions a.offset).offset),
        u = x + a.offset := by
      rw [make_collapse_mag, make_collapse_off]
      intro u hu
      obtain ⟨p, hp, rfl⟩ := List.mem_map.mp hu
      obtain ⟨w, hw, rfl⟩ := List.mem_map.mp hp
      rfl
    obtain ⟨v, hv, hvt⟩ := eqZeros
      (Quantity.make (collapseIf (R1.isScalar && b.isScalar)
        (b.magnitude.map (fun _ => x))) a.dimensions a.offset) a
      (make_collapse_dims _ _ _ _)
      (Or.inr ⟨x + a.offset, by rw [hx]; rfl, hall⟩)
    exact ⟨R1, _, v, hadd, hsub, hv, hvt⟩
  · -- b is a one-element magnitude broadcast over a
    obtain ⟨y, hy⟩ : ∃ y, b.magnitude = [y] := by
      match hv : b.magnitude, hk1 with
      | [y], _ => exact ⟨y, rfl⟩
    have hM : arrayOp a.magnitude b.magnitude (· + ·) =
        .ok (a.magnitude.map (fun p => p + y)) := by
      rw [hy]
      exact arrayOp_singletonR a.magnitude y (· + ·)
    set R1 := Quantity.make (collapseIf (a.isScalar && b.isScalar)
      (a.magnitude.map (fun p => p + y))) a.dimensions a.offset with hR1
    have hadd : a.add b = .ok R1 := add_general a b hd ho _ hM
    have hdim1 : R1.dimensions = a.dimensions := make_collapse_dims _ _ _ _
    have hmag1 : R1.magnitude = a.magnitude.map (fun p => p + y) :=
      make_collapse_mag _ _ _ _
    have hoff1 : R1.offset = a.offset := make_collapse_off _ _ _ _
    have hmid : arrayOp (R1.magnitude.map (fun p => p + R1.offset))
        (b.magnitude.map (fun q => q + 0)) (fun p q => p - q) = .ok
        (((a.magnitude.map (fun p => p + y)).map (fun p => p + a.offset)).map
          (fun p => p - (y + 0))) := by
      rw [hmag1, hoff1, hy]
      rw [show ([y].map (fun q => q + 0)) = [y + 0] from rfl]
      exact arrayOp_singletonR _ _ _
    have hsub := sub_general R1 b (hdim1.trans hd) ho _ hmid
    rw [hoff1, hdim1, subRoundListSingle a.magnitude y a.offset] at hsub
    obtain ⟨v, hv, hvt⟩ := eqZeros
      (Quantity.make (collapseIf (R1.isScalar && b.isScalar) a.magnitude)
        a.dimensions a.offset) a (make_collapse_dims _ _ _ _)
      (Or.inl (by rw [make_collapse_mag, make_collapse_off]))
    exact ⟨R1, _, v, hadd, hsub, hv, hvt⟩

/-- C7 witness: the round trip applied to 3 m and the array quantity
[5, 7, 9] m. -/
theorem pqm_c7_witness :
    ∃ r1 r2 v, Quantity.add ⟨[3], true, lenDims, 0⟩
        ⟨[5, 7, 9], false, lenDims, 0⟩ = .ok r1 ∧
      r1.sub ⟨[5, 7, 9], false, lenDims, 0⟩ = .ok r2 ∧
      r2.eq ⟨[3], true, lenDims, 0⟩ (.num 0) = .ok v ∧ v.allTrue :=
  pqm_c7_add_sub_roundtrip ⟨[3], true, lenDims, 0⟩
    ⟨[5, 7, 9], false, lenDims, 0⟩ rfl rfl (Or.inr (Or.inl rfl))

/-- C10 witness: the statement applied to 1 degC and n = -2. -/
theorem pqm_c10_witness :
    (∃ r, Quantity.pow ⟨[1], true, tempDims, 5463/20⟩ (((-2 : ℤ) : ℚ)) =
      .ok r) ∧
    Quantity.pow ⟨[1], true, tempDims, 5463/20⟩ 1 =
      .ok ⟨[1], true, tempDims, 5463/20⟩ ∧
    Quantity.inv ⟨[1], true, tempDims, 5463/20⟩ = .error .offsetInvert := by
  have h := pqm_c10_offset_power ⟨[1], true, tempDims, 5463/20⟩ (-2)
    (by norm_num) (by norm_num) (fun _ => rfl)
  exact ⟨h.1, h.2.1, h.2.2.2⟩

end Pqm
